import Mathlib

/-!
Verification of the metrics aggregation endpoint
(`internal/api/handlers/metrics/handler.go`, `GetMetrics`).

The Go code is shallowly embedded:

* `GoTime` models `time.Time` as an instant (`ns`, nanoseconds since the Go
  zero time `0001-01-01T00:00:00 UTC`) together with its zone, modelled by the
  zone's offset from UTC in seconds.  The offset invariants (a whole number of
  minutes, strictly less than 24 h in magnitude) match the zones of recorded
  timestamps (real time zones and strict RFC3339 offsets).  The lenient
  fallback of `time.Parse` can also build a `FixedZone` outside this bound
  (e.g. `+24:00`); the handler reads a parsed bound only through the
  instant-valued `IsZero`/`Before`/`After`, so `timeParse` records such a
  result by its instant with a UTC zone.
  `Before`/`After` compare instants, `IsZero` tests the zero instant,
  `Truncate(time.Hour)` floors the instant to a whole hour since the zero time
  (Go's `Truncate` works on the absolute duration since the zero time), and
  `Format(time.RFC3339)` renders the wall clock `ns + off` with the offset
  suffix, dropping sub-second precision (the RFC3339 layout has no fraction).
* Calendar conversion (days ↔ year/month/day, proleptic Gregorian) follows
  Go's `absDate` / `daysSinceEpoch`: split off 400-year eras, then 100-year,
  4-year and 1-year cycles with the `n -= n >> 2` clamps, then the
  `daysBefore` month table with the leap-day adjustment.  Go shifts time by a
  huge constant (`absoluteZeroYear`, chosen `≡ 1 (mod 400)`) so cycles align
  and all arithmetic is on unsigned values; here the era is split off with
  floor division, which is the same decomposition (year 1 also starts a
  400-year cycle).
* `Snapshot` is the nested provider → model → details structure walked by the
  handler; Go's maps keyed by `string` / `time.Time` become association lists
  built in traversal order (the final report is iteration-order independent
  because it is sorted, so a fixed order is faithful).
* `getMetrics` is the handler itself: query-string validation, the default
  24-hour window, the filter/accumulate loop, and the two sorts; `gin`'s JSON
  error responses become `Except String`.  Token counters are `int64` in Go;
  they are embedded as `Int` (all claims are arithmetic identities that hold
  verbatim modulo 2^64, so unbounded integers are faithful).
-/

/-- Go `time.Time`: instant in nanoseconds since `0001-01-01T00:00:00Z`
plus the zone offset (seconds east of UTC) used for formatting. -/
structure GoTime where
  ns : Int
  off : Int
  offMul : off % 60 = 0
  offLb : -86400 < off
  offUb : off < 86400

theorem GoTime.ext_iff' {a b : GoTime} : a = b ↔ a.ns = b.ns ∧ a.off = b.off := by
  constructor
  · intro h; subst h; exact ⟨rfl, rfl⟩
  · rintro ⟨h1, h2⟩; cases a; cases b; simp_all

instance : DecidableEq GoTime := fun a b =>
  if h : a.ns = b.ns ∧ a.off = b.off then
    .isTrue (GoTime.ext_iff'.mpr h)
  else
    .isFalse (fun he => h (GoTime.ext_iff'.mp he))

/-- The Go zero `time.Time` (`time.Time{}`): zero instant, UTC. -/
def GoTime.goZero : GoTime := ⟨0, 0, by decide, by decide, by decide⟩

/-- `t.Before(u)`: instant comparison. -/
def GoTime.before (a b : GoTime) : Prop := a.ns < b.ns

/-- `t.After(u)`: instant comparison. -/
def GoTime.after (a b : GoTime) : Prop := a.ns > b.ns

/-- `t.IsZero()`: the instant is the zero time. -/
def GoTime.isZero (a : GoTime) : Prop := a.ns = 0

instance (a b : GoTime) : Decidable (a.before b) := by unfold GoTime.before; infer_instance
instance (a b : GoTime) : Decidable (a.after b) := by unfold GoTime.after; infer_instance
instance (a : GoTime) : Decidable (a.isZero) := by unfold GoTime.isZero; infer_instance

/-- `t.Add(d)` for a duration of `s` seconds: shifts the instant, keeps the
zone. -/
def GoTime.addSecs (t : GoTime) (s : Int) : GoTime :=
  ⟨t.ns + s * 1000000000, t.off, t.offMul, t.offLb, t.offUb⟩

/-- `t.Truncate(time.Hour)`: floor the instant to a multiple of one hour
since the zero time; the zone is unchanged. -/
def GoTime.truncHour (t : GoTime) : GoTime :=
  ⟨3600000000000 * (t.ns / 3600000000000), t.off, t.offMul, t.offLb, t.offUb⟩

/-! ### Decimal digit rendering (Go `appendInt`) -/

/-- Digit loop of Go `appendInt`, fuel-bounded in the style of
`Nat.toDigitsCore` so that it evaluates by kernel reduction. -/
def natDigitsCore : Nat → Nat → List Char → List Char
  | 0, _, ds => ds
  | fuel + 1, n, ds =>
    if n < 10 then Nat.digitChar n :: ds
    else natDigitsCore fuel (n / 10) (Nat.digitChar (n % 10) :: ds)

/-- Decimal digits of `n`, most significant first (always nonempty). -/
def natDigits (n : Nat) : List Char := natDigitsCore (n + 1) n []

theorem natDigitsCore_congr : ∀ n f1 f2 ds, n < f1 → n < f2 →
    natDigitsCore f1 n ds = natDigitsCore f2 n ds := by
  intro n
  induction n using Nat.strong_induction_on with
  | _ n ih =>
    intro f1 f2 ds h1 h2
    match f1, h1, f2, h2 with
    | g1 + 1, h1, g2 + 1, h2 =>
      by_cases h10 : n < 10
      · simp [natDigitsCore, h10]
      · simp only [natDigitsCore, if_neg h10]
        have hd : n / 10 < n := Nat.div_lt_self (by omega) (by omega)
        exact ih (n / 10) hd g1 g2 _ (by omega) (by omega)

theorem natDigitsCore_append : ∀ n fuel ds, n < fuel →
    natDigitsCore fuel n ds = natDigitsCore fuel n [] ++ ds := by
  intro n
  induction n using Nat.strong_induction_on with
  | _ n ih =>
    intro fuel ds h
    match fuel, h with
    | g + 1, h =>
      by_cases h10 : n < 10
      · simp [natDigitsCore, h10]
      · simp only [natDigitsCore, if_neg h10]
        have hd : n / 10 < n := Nat.div_lt_self (by omega) (by omega)
        have hg : n / 10 < g := by omega
        rw [ih (n / 10) hd g (Nat.digitChar (n % 10) :: ds) hg,
          ih (n / 10) hd g [Nat.digitChar (n % 10)] hg]
        simp

theorem natDigits_eq (n : Nat) :
    natDigits n = if n < 10 then [Nat.digitChar n]
      else natDigits (n / 10) ++ [Nat.digitChar (n % 10)] := by
  unfold natDigits
  by_cases h10 : n < 10
  · simp [natDigitsCore, h10]
  · simp only [natDigitsCore, if_neg h10]
    have hd : n / 10 < n := Nat.div_lt_self (by omega) (by omega)
    rw [natDigitsCore_congr (n / 10) n (n / 10 + 1) [Nat.digitChar (n % 10)] hd (by omega),
      natDigitsCore_append (n / 10) (n / 10 + 1) [Nat.digitChar (n % 10)] (by omega)]
    rfl

/-- Numeric value of a decimal digit character. -/
def digitVal (c : Char) : Nat := c.toNat - 48

/-- Decode a digit string back to a number (left inverse of rendering). -/
def decodeDigits (l : List Char) : Nat := l.foldl (fun a c => 10 * a + digitVal c) 0

/-- Zero-pad the decimal rendering of `n` to width `w`
(Go `appendInt(·, n, w)` for nonnegative `n`). -/
def padDigits (w : Nat) (n : Nat) : List Char :=
  List.replicate (w - (natDigits n).length) '0' ++ natDigits n

theorem digitVal_digitChar : ∀ x, x < 10 → digitVal (Nat.digitChar x) = x := by decide

theorem digitChar_isDigit : ∀ x, x < 10 → (Nat.digitChar x).isDigit = true := by decide

theorem decodeDigits_append_singleton (l : List Char) (c : Char) :
    decodeDigits (l ++ [c]) = 10 * decodeDigits l + digitVal c := by
  unfold decodeDigits
  rw [List.foldl_append]
  rfl

theorem decodeDigits_natDigits (n : Nat) : decodeDigits (natDigits n) = n := by
  induction n using Nat.strong_induction_on with
  | _ n ih =>
    rw [natDigits_eq]
    split
    · rename_i h
      have hd := digitVal_digitChar n h
      simp only [decodeDigits, List.foldl_cons, List.foldl_nil]
      omega
    · rename_i h
      rw [decodeDigits_append_singleton, ih (n / 10) (Nat.div_lt_self (by omega) (by omega)),
        digitVal_digitChar (n % 10) (by omega)]
      omega

theorem natDigits_ne_nil (n : Nat) : natDigits n ≠ [] := by
  rw [natDigits_eq]
  split
  · simp
  · simp

theorem natDigits_isDigit (n : Nat) : ∀ c ∈ natDigits n, c.isDigit = true := by
  induction n using Nat.strong_induction_on with
  | _ n ih =>
    rw [natDigits_eq]
    split
    · intro c hc
      rw [List.mem_singleton] at hc
      subst hc
      exact digitChar_isDigit n (by omega)
    · intro c hc
      rw [List.mem_append] at hc
      rcases hc with hc | hc
      · exact ih (n / 10) (Nat.div_lt_self (by omega) (by omega)) c hc
      · rw [List.mem_singleton] at hc
        subst hc
        exact digitChar_isDigit (n % 10) (by omega)

theorem decodeDigits_replicate_zero_append (k : Nat) (l : List Char) :
    decodeDigits (List.replicate k '0' ++ l) = decodeDigits l := by
  induction k with
  | zero => rfl
  | succ k ihk =>
    have h0 : List.replicate (k + 1) '0' ++ l = '0' :: (List.replicate k '0' ++ l) := by
      simp [List.replicate_succ]
    rw [h0]
    unfold decodeDigits at *
    simpa using ihk

theorem decodeDigits_padDigits (w n : Nat) : decodeDigits (padDigits w n) = n := by
  unfold padDigits
  rw [decodeDigits_replicate_zero_append, decodeDigits_natDigits]

theorem padDigits_isDigit (w n : Nat) : ∀ c ∈ padDigits w n, c.isDigit = true := by
  intro c hc
  unfold padDigits at hc
  rw [List.mem_append] at hc
  rcases hc with hc | hc
  · rw [List.eq_of_mem_replicate hc]
    decide
  · exact natDigits_isDigit n c hc

theorem natDigits_length_le_two (n : Nat) (h : n < 100) : (natDigits n).length ≤ 2 := by
  rw [natDigits_eq]
  split
  · simp
  · rename_i h10
    rw [natDigits_eq]
    have : n / 10 < 10 := by omega
    simp [this]

theorem padDigits_two_length (n : Nat) (h : n < 100) : (padDigits 2 n).length = 2 := by
  unfold padDigits
  rw [List.length_append, List.length_replicate]
  have h1 : (natDigits n).length ≤ 2 := natDigits_length_le_two n h
  have h2 : (natDigits n).length ≠ 0 := by
    intro h0
    exact natDigits_ne_nil n (List.length_eq_zero.mp h0)
  omega

/-! ### Proleptic Gregorian calendar, following Go `absDate` / `daysSinceEpoch` -/

/-- Cumulative days before each month in a non-leap year
(Go's `daysBefore` array). -/
def daysBefore : Nat → Nat
  | 0 => 0
  | 1 => 31
  | 2 => 59
  | 3 => 90
  | 4 => 120
  | 5 => 151
  | 6 => 181
  | 7 => 212
  | 8 => 243
  | 9 => 273
  | 10 => 304
  | 11 => 334
  | _ => 365

/-- Go `isLeap`. -/
def isLeap (y : Int) : Prop := (y % 4 = 0 ∧ y % 100 ≠ 0) ∨ y % 400 = 0

instance (y : Int) : Decidable (isLeap y) := by unfold isLeap; infer_instance

/-- Month (1–12) and day of month (1–31) from a day of year (0-based),
exactly the final paragraph of Go `absDate`. -/
def mdFromYday (leap : Bool) (yday : Nat) : Nat × Nat :=
  if leap ∧ yday = 59 then (2, 29)
  else
    let day := if leap ∧ 59 < yday then yday - 1 else yday
    let m0 := day / 31
    if daysBefore (m0 + 1) ≤ day then
      (m0 + 2, day - daysBefore (m0 + 1) + 1)
    else
      (m0 + 1, day - daysBefore m0 + 1)

/-- Day of year (0-based) from month and day of month (the month/day summands
of Go `daysSinceEpoch`). -/
def ydayOf (leap : Bool) (m d : Nat) : Nat :=
  daysBefore (m - 1) + (if leap ∧ 3 ≤ m then 1 else 0) + d - 1

/-- 400-year era of a day number counted from `0001-01-01` (Go `absDate`'s
`n := d / daysPer400Years`, with floor division standing in for Go's
unsigned shift by `absoluteZeroYear`). -/
def eraOfDays (z : Int) : Int := z / 146097

/-- Day within the 400-year era, in `[0, 146096]`. -/
def doeOfDays (z : Int) : Nat := (z - 146097 * eraOfDays z).toNat

/-- 100-year cycle within the era, clamped to 3 (Go `n := d / daysPer100Years;
n -= n >> 2`). -/
def cent100 (r : Nat) : Nat := r / 36524 - r / 36524 / 4

/-- Day within the 100-year cycle. -/
def r2In (r : Nat) : Nat := r - 36524 * cent100 r

/-- 4-year cycle within the 100-year cycle (Go `n := d / daysPer4Years`). -/
def quad4 (r2 : Nat) : Nat := r2 / 1461

/-- Day within the 4-year cycle. -/
def r3In (r2 : Nat) : Nat := r2 - 1461 * quad4 r2

/-- Year within the 4-year cycle, clamped to 3 (Go `n := d / 365;
n -= n >> 2`). -/
def yr1 (r3 : Nat) : Nat := r3 / 365 - r3 / 365 / 4

/-- Day of year, 0-based (Go `absDate`'s `yday`). -/
def ydayIn (r3 : Nat) : Nat := r3 - 365 * yr1 r3

/-- Year within the 400-year era, in `[0, 399]`. -/
def yoeOfDays (z : Int) : Nat :=
  100 * cent100 (doeOfDays z) + 4 * quad4 (r2In (doeOfDays z)) +
    yr1 (r3In (r2In (doeOfDays z)))

/-- Year of a day number counted from `0001-01-01`. -/
def yearOfDays (z : Int) : Int := 1 + 400 * eraOfDays z + yoeOfDays z

/-- Civil date (year, month 1–12, day 1–31) of a day number counted from
`0001-01-01`, following Go `absDate`. -/
def civilFromDays (z : Int) : Int × Nat × Nat :=
  (yearOfDays z,
    mdFromYday (decide (isLeap (yearOfDays z))) (ydayIn (r3In (r2In (doeOfDays z)))))

/-- Day number counted from `0001-01-01` of a civil date
(Go `daysSinceEpoch`). -/
def daysFromCivil (y : Int) (m d : Nat) : Int :=
  let era := (y - 1) / 400
  let yoe := (y - 1 - 400 * era).toNat
  let a := yoe / 100
  let b := yoe % 100 / 4
  let c := yoe % 100 % 4
  let yday := ydayOf (decide (isLeap y)) m d
  146097 * era + (36524 * a + 1461 * b + 365 * c + yday : Nat)

/-- Bounded checker used to certify finite facts below. -/
def allRange (f : Nat → Bool) : Nat → Nat → Nat → Bool
  | 0, _, _ => false
  | _ + 1, _, 0 => true
  | _ + 1, lo, 1 => f lo
  | fuel + 1, lo, n =>
    allRange f fuel lo (n / 2) && allRange f fuel (lo + n / 2) (n - n / 2)

theorem allRange_spec (f : Nat → Bool) :
    ∀ fuel lo n, allRange f fuel lo n = true → ∀ i, i < n → f (lo + i) = true := by
  intro fuel
  induction fuel with
  | zero =>
    intro lo n h i hi
    rcases n with _ | m
    · omega
    · rcases m with _ | k
      · have h1 : false = true := h
        exact absurd h1 (by simp)
      · have h1 : false = true := h
        exact absurd h1 (by simp)
  | succ fuel ihf =>
    intro lo n h i hi
    match n, hi with
    | 1, hi =>
      have h0 : i = 0 := by omega
      subst h0
      exact h
    | (m + 2), hi =>
      have h2 : (allRange f fuel lo ((m + 2) / 2) &&
          allRange f fuel (lo + (m + 2) / 2) (m + 2 - (m + 2) / 2)) = true := h
      rw [Bool.and_eq_true] at h2
      by_cases hc : i < (m + 2) / 2
      · exact ihf lo ((m + 2) / 2) h2.1 i hc
      · have h3 := ihf (lo + (m + 2) / 2) (m + 2 - (m + 2) / 2) h2.2 (i - (m + 2) / 2) (by omega)
        have he : lo + (m + 2) / 2 + (i - (m + 2) / 2) = lo + i := by omega
        rwa [he] at h3

/-- Boolean form of the month-table roundtrip and bounds, for a given leap
flag and day of year. -/
def mdOK (leap : Bool) (yday : Nat) : Bool :=
  let md := mdFromYday leap yday
  decide (1 ≤ md.1 ∧ md.1 ≤ 12 ∧ 1 ≤ md.2 ∧ md.2 ≤ 31 ∧ ydayOf leap md.1 md.2 = yday)

theorem md_check_leap : allRange (mdOK true) 10 0 366 = true := by decide

theorem md_check_noleap : allRange (mdOK false) 10 0 365 = true := by decide

theorem mdFromYday_true_spec (yday : Nat) (h : yday < 366) :
    1 ≤ (mdFromYday true yday).1 ∧ (mdFromYday true yday).1 ≤ 12 ∧
      1 ≤ (mdFromYday true yday).2 ∧ (mdFromYday true yday).2 ≤ 31 ∧
      ydayOf true (mdFromYday true yday).1 (mdFromYday true yday).2 = yday := by
  have hres := allRange_spec (mdOK true) 10 0 366 md_check_leap yday (by omega)
  simpa [mdOK] using hres

theorem mdFromYday_false_spec (yday : Nat) (h : yday < 365) :
    1 ≤ (mdFromYday false yday).1 ∧ (mdFromYday false yday).1 ≤ 12 ∧
      1 ≤ (mdFromYday false yday).2 ∧ (mdFromYday false yday).2 ≤ 31 ∧
      ydayOf false (mdFromYday false yday).1 (mdFromYday false yday).2 = yday := by
  have hres := allRange_spec (mdOK false) 10 0 365 md_check_noleap yday (by omega)
  simpa [mdOK] using hres

/-- The civil conversion inverts the day count, and produces a month in
1–12 and a day of month in 1–31. -/
theorem civilFromDays_spec (z : Int) :
    daysFromCivil (civilFromDays z).1 (civilFromDays z).2.1 (civilFromDays z).2.2 = z ∧
      1 ≤ (civilFromDays z).2.1 ∧ (civilFromDays z).2.1 ≤ 12 ∧
      1 ≤ (civilFromDays z).2.2 ∧ (civilFromDays z).2.2 ≤ 31 := by
  simp only [civilFromDays, daysFromCivil]
  set r : Nat := doeOfDays z with hrdef
  set a : Nat := cent100 r with ha
  set r2 : Nat := r2In r with hr2
  set b : Nat := quad4 r2 with hb
  set r3 : Nat := r3In r2 with hr3
  set c : Nat := yr1 r3 with hc
  set yday : Nat := ydayIn r3 with hyday
  set y : Int := yearOfDays z with hy
  have hr : (r : Int) = z - 146097 * (z / 146097) ∧ r ≤ 146096 := by
    rw [hrdef]; unfold doeOfDays eraOfDays; omega
  have hae : a = r / 36524 - r / 36524 / 4 := by rw [ha]; rfl
  have hr2e : r2 = r - 36524 * a := by rw [hr2, ha]; rfl
  have hbe : b = r2 / 1461 := by rw [hb]; rfl
  have hr3e : r3 = r2 - 1461 * b := by rw [hr3, hb]; rfl
  have hce : c = r3 / 365 - r3 / 365 / 4 := by rw [hc]; rfl
  have hydaye : yday = r3 - 365 * c := by rw [hyday, hc]; rfl
  have hye : y = 1 + 400 * (z / 146097) + (100 * a + 4 * b + c : Nat) := by
    rw [hy, ha, hb, hc]; unfold yearOfDays yoeOfDays eraOfDays; push_cast; ring
  have hfacts : a ≤ 3 ∧ b ≤ 24 ∧ c ≤ 3 ∧ yday ≤ 365 ∧
      r = 36524 * a + 1461 * b + 365 * c + yday ∧
      (yday = 365 → c = 3 ∧ (b < 24 ∨ a = 3)) := by omega
  have h1 : (y - 1) / 400 = z / 146097 := by omega
  have h2 : (y - 1 - 400 * ((y - 1) / 400)).toNat = 100 * a + 4 * b + c := by omega
  rw [h2]
  have h3 : (100 * a + 4 * b + c) / 100 = a := by omega
  have h4 : (100 * a + 4 * b + c) % 100 / 4 = b := by omega
  have h5 : (100 * a + 4 * b + c) % 100 % 4 = c := by omega
  rw [h3, h4, h5, h1]
  have hleapiff : isLeap y ↔ (c = 3 ∧ (b < 24 ∨ a = 3)) := by
    unfold isLeap
    omega
  by_cases hleap : isLeap y
  · rw [decide_eq_true hleap]
    have hspec := mdFromYday_true_spec yday (by omega)
    rw [hspec.2.2.2.2]
    refine ⟨by omega, hspec.1, hspec.2.1, hspec.2.2.1, hspec.2.2.2.1⟩
  · rw [decide_eq_false hleap]
    have hbound : yday < 365 := by
      rcases Nat.lt_or_ge yday 365 with hlt | hge
      · omega
      · exact absurd (hleapiff.mpr (hfacts.2.2.2.2.2 (by omega))) hleap
    have hspec := mdFromYday_false_spec yday hbound
    rw [hspec.2.2.2.2]
    refine ⟨by omega, hspec.1, hspec.2.1, hspec.2.2.1, hspec.2.2.2.1⟩

/-! ### RFC3339 formatting (Go `Time.Format(time.RFC3339)`) -/

/-- Zone suffix: `Z` for UTC, otherwise `±hh:mm`
(Go layout element `Z07:00`). -/
def zoneChars (off : Int) : List Char :=
  if off = 0 then ['Z']
  else if 0 < off then
    '+' :: (padDigits 2 (off.toNat / 3600) ++ ':' :: padDigits 2 (off.toNat % 3600 / 60))
  else
    '-' :: (padDigits 2 ((-off).toNat / 3600) ++ ':' :: padDigits 2 ((-off).toNat % 3600 / 60))

/-- Year field: 4-digit zero padding, `-` sign for negative years
(Go `appendInt(b, year, 4)`). -/
def yearChars (y : Int) : List Char :=
  if y < 0 then '-' :: padDigits 4 (-y).toNat
  else padDigits 4 y.toNat

/-- `t.Format(time.RFC3339)` as a character list: the wall clock
`ns + off` split into date and time of day, then the zone suffix.  The
RFC3339 layout has no fractional-second field, so sub-second precision is
dropped. -/
def fmtRFC3339List (t : GoTime) : List Char :=
  let wallSec := t.ns / 1000000000 + t.off
  let days := wallSec / 86400
  let secOfDay := (wallSec - 86400 * days).toNat
  let c := civilFromDays days
  yearChars c.1 ++ '-' :: padDigits 2 c.2.1 ++ '-' :: padDigits 2 c.2.2 ++
    'T' :: padDigits 2 (secOfDay / 3600) ++ ':' :: padDigits 2 (secOfDay % 3600 / 60) ++
    ':' :: padDigits 2 (secOfDay % 60) ++ zoneChars t.off

/-- `t.Format(time.RFC3339)`. -/
def fmtRFC3339 (t : GoTime) : String := String.mk (fmtRFC3339List t)

/-! ### RFC3339 parsing (Go `time.Parse(time.RFC3339, ·)`) -/

/-- Value of an ASCII digit, failing on other characters. -/
def digVal2 (c1 c2 : Char) : Option Nat :=
  if c1.isDigit ∧ c2.isDigit then
    some (10 * (c1.toNat - 48) + (c2.toNat - 48))
  else none

/-- Value of a 4-digit field. -/
def digVal4 (c1 c2 c3 c4 : Char) : Option Nat :=
  if c1.isDigit ∧ c2.isDigit ∧ c3.isDigit ∧ c4.isDigit then
    some (1000 * (c1.toNat - 48) + 100 * (c2.toNat - 48) + 10 * (c3.toNat - 48) +
      (c4.toNat - 48))
  else none

/-- Days in a month (Go `daysIn`). -/
def daysIn (y : Int) (m : Nat) : Nat :=
  if m = 2 ∧ isLeap y then 29 else daysBefore m - daysBefore (m - 1)

/-- Smart constructor for a parsed time: instant from wall-clock seconds and
nanoseconds, zone from the parsed `±hh:mm` offset. -/
def mkParsed (wallSec : Int) (frac : Nat) (neg : Bool) (zh zm : Nat)
    (hzh : zh ≤ 23) (hzm : zm ≤ 59) : GoTime :=
  let off : Int := (if neg then -1 else 1) * (3600 * zh + 60 * zm)
  { ns := (wallSec - off) * 1000000000 + frac
    off := off
    offMul := by
      simp only [off]
      split <;> omega
    offLb := by
      simp only [off]
      split <;> omega
    offUb := by
      simp only [off]
      split <;> omega }

/-- Nanoseconds from a fractional-second digit string (at most the first nine
digits are significant). -/
def fracNanos (ds : List Char) : Nat :=
  decodeDigits (ds.take 9) * 10 ^ (9 - (ds.take 9).length)

/-- Parse the zone suffix with the seconds-within-day and fraction already
known. -/
def parseZone (wallSec : Int) (frac : Nat) : List Char → Option GoTime
  | ['Z'] => some (mkParsed wallSec frac false 0 0 (by omega) (by omega))
  | ['+', z1, z2, ':', z3, z4] =>
    match digVal2 z1 z2, digVal2 z3 z4 with
    | some zh, some zm =>
      if h : zh ≤ 23 ∧ zm ≤ 59 then some (mkParsed wallSec frac false zh zm h.1 h.2)
      else none
    | _, _ => none
  | ['-', z1, z2, ':', z3, z4] =>
    match digVal2 z1 z2, digVal2 z3 z4 with
    | some zh, some zm =>
      if h : zh ≤ 23 ∧ zm ≤ 59 then some (mkParsed wallSec frac true zh zm h.1 h.2)
      else none
    | _, _ => none
  | _ => none

/-- Parse an optional fractional-second field then the zone suffix. -/
def parseFracZone (wallSec : Int) : List Char → Option GoTime
  | '.' :: rest =>
    let ds := rest.takeWhile Char.isDigit
    if ds = [] then none
    else parseZone wallSec (fracNanos ds) (rest.dropWhile Char.isDigit)
  | ',' :: rest =>
    let ds := rest.takeWhile Char.isDigit
    if ds = [] then none
    else parseZone wallSec (fracNanos ds) (rest.dropWhile Char.isDigit)
  | l => parseZone wallSec 0 l

/-- The strict RFC3339 parse (Go `parseRFC3339` in `format_rfc3339.go`), the
fast path of `time.Parse(time.RFC3339, ·)`: fixed-shape date and time fields,
range checks on month, day (against the month length), hour, minute, second
and the zone groups, then fraction and zone.  (It also accepts `,` as the
decimal separator, which Go's fast path leaves to the fallback; the fallback
returns the same fields there, so `time.Parse` as a whole is unchanged.) -/
def parseRFC3339List : List Char → Option GoTime
  | y1 :: y2 :: y3 :: y4 :: '-' :: m1 :: m2 :: '-' :: d1 :: d2 :: 'T' ::
      h1 :: h2 :: ':' :: mi1 :: mi2 :: ':' :: s1 :: s2 :: rest =>
    match digVal4 y1 y2 y3 y4, digVal2 m1 m2, digVal2 d1 d2, digVal2 h1 h2,
        digVal2 mi1 mi2, digVal2 s1 s2 with
    | some y, some mo, some d, some hh, some mi, some ss =>
      if 1 ≤ mo ∧ mo ≤ 12 ∧ 1 ≤ d ∧ d ≤ daysIn y mo ∧ hh ≤ 23 ∧ mi ≤ 59 ∧ ss ≤ 59 then
        parseFracZone (daysFromCivil y mo d * 86400 + (3600 * hh + 60 * mi + ss)) rest
      else none
    | _, _, _, _, _, _ => none
  | _ => none

/-- The strict fast path of `time.Parse(time.RFC3339, s)` on a string. -/
def parseRFC3339 (s : String) : Option GoTime := parseRFC3339List s.data

/-- Go `getnum` with `fixed = false` (layout chunk `15`, the hour): one
digit, or two when a second digit follows. -/
def getnum1or2 : List Char → Option (Nat × List Char)
  | c1 :: c2 :: rest =>
    if c1.isDigit then
      if c2.isDigit then some (10 * (c1.toNat - 48) + (c2.toNat - 48), rest)
      else some (c1.toNat - 48, c2 :: rest)
    else none
  | [c1] => if c1.isDigit then some (c1.toNat - 48, []) else none
  | [] => none

/-- What Go's general layout parser (`parse` in `format.go`) extracts from a
value before building the `time.Time`: wall-clock seconds since the zero
time, fractional nanoseconds, and the zone offset in seconds. -/
structure ParsedFields where
  wallSec : Int
  frac : Nat
  off : Int

/-- The `Z07:00` layout chunk (`stdISO8601ColonTZ`) of the general layout
parser: `Z`, or a sign and two two-digit groups separated by `:` — with no
range check on either group, so offsets up to `±(99 h 99 min)` are
accepted.  Anything left over after the chunk is "extra text" and an
error, hence the exact-shape patterns. -/
def parseLayoutZone : List Char → Option Int
  | ['Z'] => some 0
  | [sgn, z1, z2, ':', z3, z4] =>
    match digVal2 z1 z2, digVal2 z3 z4 with
    | some zh, some zm =>
      if sgn = '+' then some (3600 * (zh : Int) + 60 * zm)
      else if sgn = '-' then some (-(3600 * (zh : Int) + 60 * zm))
      else none
    | _, _ => none
  | _ => none

/-- Optional fractional second of the general layout parser (`.` or `,`
followed by at least one digit; the first nine digits are significant),
then the zone. -/
def parseLayoutFracZone : List Char → Option (Nat × Int)
  | '.' :: rest =>
    let ds := rest.takeWhile Char.isDigit
    if ds = [] then none
    else
      match parseLayoutZone (rest.dropWhile Char.isDigit) with
      | some z => some (fracNanos ds, z)
      | none => none
  | ',' :: rest =>
    let ds := rest.takeWhile Char.isDigit
    if ds = [] then none
    else
      match parseLayoutZone (rest.dropWhile Char.isDigit) with
      | some z => some (fracNanos ds, z)
      | none => none
  | l =>
    match parseLayoutZone l with
    | some z => some (0, z)
    | none => none

/-- Go's general layout parser `parse` (`format.go`) applied to the
`time.RFC3339` layout — the fallback `time.Parse` runs when the strict
RFC3339 path fails.  Compared with the strict path it also accepts a
one-digit hour (layout chunk `15` reads one or two digits) and an
out-of-range `±hh:mm` zone (the zone groups carry no range check); month,
day, hour, minute and second keep their range checks, and the day check
against the month length happens after the whole value is consumed (the
order does not affect which values are accepted). -/
def parseLayoutList (l : List Char) : Option ParsedFields :=
  match l with
  | y1 :: y2 :: y3 :: y4 :: '-' :: m1 :: m2 :: '-' :: d1 :: d2 :: 'T' :: rest =>
    match digVal4 y1 y2 y3 y4, digVal2 m1 m2, digVal2 d1 d2 with
    | some y, some mo, some d =>
      match getnum1or2 rest with
      | some (hh, rest1) =>
        match rest1 with
        | ':' :: mi1 :: mi2 :: ':' :: s1 :: s2 :: rest2 =>
          match digVal2 mi1 mi2, digVal2 s1 s2 with
          | some mi, some ss =>
            if 1 ≤ mo ∧ mo ≤ 12 ∧ 1 ≤ d ∧ d ≤ daysIn y mo ∧ hh ≤ 23 ∧
                mi ≤ 59 ∧ ss ≤ 59 then
              match parseLayoutFracZone rest2 with
              | some (frac, z) =>
                some ⟨daysFromCivil y mo d * 86400 + (3600 * hh + 60 * mi + ss),
                  frac, z⟩
              | none => none
            else none
          | _, _ => none
        | _ => none
      | none => none
    | _, _, _ => none
  | _ => none

/-- `time.Parse(time.RFC3339, s)` as `GetMetrics` uses its result: Go tries
the strict RFC3339 parse first and falls back to the general layout parser.
The handler reads a parsed bound only through `IsZero`, `Before` and
`After`, all functions of the absolute instant alone, so the fallback's
value is carried as its instant (wall clock minus zone offset); its zone —
which Go keeps as a `FixedZone` possibly outside the recorded-timestamp
offset bound, e.g. for `+24:00` — is never read by the handler and is
recorded here as UTC. -/
def timeParse (s : String) : Option GoTime :=
  match parseRFC3339 s with
  | some t => some t
  | none =>
    match parseLayoutList s.data with
    | some f =>
      some { ns := (f.wallSec - f.off) * 1000000000 + f.frac
             off := 0
             offMul := by omega
             offLb := by omega
             offUb := by omega }
    | none => none

/-! ### Data model of the handler (`handler.go`) -/

/-- One recorded request (`usage.UsageDetail`): its timestamp and
`Tokens.TotalTokens`. -/
structure UsageDetail where
  timestamp : GoTime
  totalTokens : Int
deriving DecidableEq

/-- Per-model usage snapshot: the recorded details. -/
structure ModelSnapshot where
  details : List UsageDetail

/-- Per-provider usage snapshot: models keyed by name. -/
structure APISnapshot where
  models : List (String × ModelSnapshot)

/-- The statistics snapshot returned by `h.Stats.Snapshot()`. -/
structure Snapshot where
  apis : List APISnapshot

/-- `TotalsMetrics`. -/
structure TotalsMetrics where
  tokens : Int
  requests : Int
deriving DecidableEq

/-- `ModelMetrics`. -/
structure ModelMetrics where
  model : String
  tokens : Int
  requests : Int
deriving DecidableEq

/-- `TimeseriesBucket`. -/
structure TimeseriesBucket where
  bucketStart : String
  tokens : Int
  requests : Int
deriving DecidableEq

/-- `MetricsResponse`. -/
structure MetricsResponse where
  totals : TotalsMetrics
  byModel : List ModelMetrics
  timeseries : List TimeseriesBucket
deriving DecidableEq

/-- The three query parameters; `c.Query` yields `""` for an absent
parameter, which is also how the handler tests absence. -/
structure Query where
  fromStr : String
  toStr : String
  modelFilter : String

/-! ### The aggregation loop of `GetMetrics` -/

/-- Accumulator state of the loop: running totals and the two maps, as
association lists in insertion order. -/
structure AggState where
  totalTokens : Int
  totalRequests : Int
  modelMetricsMap : List (String × ModelMetrics)
  timeseriesMap : List (GoTime × TimeseriesBucket)

/-- `modelMetricsMap` update: create `ModelMetrics{Model: modelName}` on
first sight, then `Requests++` and `Tokens += detail.Tokens.TotalTokens`. -/
def bumpModel (name : String) (tok : Int) :
    List (String × ModelMetrics) → List (String × ModelMetrics)
  | [] => [(name, ⟨name, tok, 1⟩)]
  | (k, v) :: rest =>
    if k = name then (k, ⟨v.model, v.tokens + tok, v.requests + 1⟩) :: rest
    else (k, v) :: bumpModel name tok rest

/-- `timeseriesMap` update: create `TimeseriesBucket{BucketStart:
bucket.Format(time.RFC3339)}` on first sight, then increment. -/
def bumpBucket (key : GoTime) (tok : Int) :
    List (GoTime × TimeseriesBucket) → List (GoTime × TimeseriesBucket)
  | [] => [(key, ⟨fmtRFC3339 key, tok, 1⟩)]
  | (k, v) :: rest =>
    if k = key then (k, ⟨v.bucketStart, v.tokens + tok, v.requests + 1⟩) :: rest
    else (k, v) :: bumpBucket key tok rest

/-- The time filter of the loop: skip the detail iff a nonzero lower bound is
set and the timestamp is strictly before it, or a nonzero upper bound is set
and the timestamp is strictly after it. -/
def windowSkip (fromTime toTime ts : GoTime) : Prop :=
  (¬ fromTime.isZero ∧ ts.before fromTime) ∨ (¬ toTime.isZero ∧ ts.after toTime)

instance (fromTime toTime ts : GoTime) : Decidable (windowSkip fromTime toTime ts) := by
  unfold windowSkip
  infer_instance

/-- Body of the innermost loop (one `detail`). -/
def procDetail (fromTime toTime : GoTime) (modelName : String)
    (st : AggState) (detail : UsageDetail) : AggState :=
  if windowSkip fromTime toTime detail.timestamp then st
  else
    { totalTokens := st.totalTokens + detail.totalTokens
      totalRequests := st.totalRequests + 1
      modelMetricsMap := bumpModel modelName detail.totalTokens st.modelMetricsMap
      timeseriesMap :=
        bumpBucket detail.timestamp.truncHour detail.totalTokens st.timeseriesMap }

/-- Body of the middle loop (one model of one provider), including the
`modelFilter` test. -/
def procModel (fromTime toTime : GoTime) (modelFilter : String)
    (st : AggState) (entry : String × ModelSnapshot) : AggState :=
  if modelFilter ≠ "" ∧ modelFilter ≠ entry.1 then st
  else entry.2.details.foldl (procDetail fromTime toTime entry.1) st

/-- Body of the outer loop (one provider). -/
def procAPI (fromTime toTime : GoTime) (modelFilter : String)
    (st : AggState) (api : APISnapshot) : AggState :=
  api.models.foldl (procModel fromTime toTime modelFilter) st

/-- The whole accumulation pass of `GetMetrics`. -/
def aggregate (snapshot : Snapshot) (modelFilter : String)
    (fromTime toTime : GoTime) : AggState :=
  snapshot.apis.foldl (procAPI fromTime toTime modelFilter) ⟨0, 0, [], []⟩

/-- Materialize and sort, as the two `sort.Slice` calls do: ascending by
model name, ascending by `bucket_start` string. -/
def finalize (st : AggState) : MetricsResponse :=
  { totals := ⟨st.totalTokens, st.totalRequests⟩
    byModel := List.insertionSort (fun a b => a.model ≤ b.model)
      (st.modelMetricsMap.map Prod.snd)
    timeseries := List.insertionSort (fun a b => a.bucketStart ≤ b.bucketStart)
      (st.timeseriesMap.map Prod.snd) }

/-- `GetMetrics` after query validation, with the effective bounds already
as `time.Time` values. -/
def getMetricsCore (snapshot : Snapshot) (modelFilter : String)
    (fromTime toTime : GoTime) : MetricsResponse :=
  finalize (aggregate snapshot modelFilter fromTime toTime)

/-- The handler `GetMetrics`: default trailing 24-hour window when neither
bound is supplied, otherwise RFC3339 validation of each supplied bound (an
unsupplied bound stays the zero `time.Time`), then the aggregation pass.
`now` is `time.Now()` at the moment of the call; the gin error responses
are the `Except.error` cases. -/
def getMetrics (snapshot : Snapshot) (q : Query) (now : GoTime) :
    Except String MetricsResponse :=
  if q.fromStr = "" ∧ q.toStr = "" then
    .ok (getMetricsCore snapshot q.modelFilter (now.addSecs (-86400)) now)
  else
    match (if q.fromStr = "" then some GoTime.goZero else timeParse q.fromStr) with
    | none => .error "invalid 'from' timestamp format"
    | some fromTime =>
      match (if q.toStr = "" then some GoTime.goZero else timeParse q.toStr) with
      | none => .error "invalid 'to' timestamp format"
      | some toTime => .ok (getMetricsCore snapshot q.modelFilter fromTime toTime)

/-- Modelled from the spec: truncation "down to the start of its calendar
hour (minutes/seconds/sub-second components zeroed, same timezone/offset
semantics as the source timestamp)", i.e. flooring the wall clock of the
timestamp's own zone to a whole hour.  This is the bucketing the spec text
describes; claim C3 compares it with the code's `Truncate(time.Hour)`. -/
def truncHourLocal (t : GoTime) : GoTime :=
  ⟨3600000000000 * ((t.ns + t.off * 1000000000) / 3600000000000) -
      t.off * 1000000000, t.off, t.offMul, t.offLb, t.offUb⟩

/-! ### Flattened view of the traversal -/

/-- All (model name, detail) pairs of the snapshot, in traversal order. -/
def flatPairs (s : Snapshot) : List (String × UsageDetail) :=
  s.apis.flatMap (fun api =>
    api.models.flatMap (fun e => e.2.details.map (fun d => (e.1, d))))

/-- One traversal step on a single (model name, detail) pair. -/
def procPair (fromTime toTime : GoTime) (modelFilter : String)
    (st : AggState) (p : String × UsageDetail) : AggState :=
  if modelFilter ≠ "" ∧ modelFilter ≠ p.1 then st
  else procDetail fromTime toTime p.1 st p.2

/-- A pair is counted by the loop iff it passes the model filter and the
time window. -/
def pairMatches (fromTime toTime : GoTime) (modelFilter : String)
    (p : String × UsageDetail) : Prop :=
  ¬ (modelFilter ≠ "" ∧ modelFilter ≠ p.1) ∧
    ¬ windowSkip fromTime toTime p.2.timestamp

instance (fromTime toTime : GoTime) (modelFilter : String)
    (p : String × UsageDetail) : Decidable (pairMatches fromTime toTime modelFilter p) := by
  unfold pairMatches
  infer_instance

theorem foldl_map_pair (ft tt : GoTime) (fil name : String)
    (details : List UsageDetail) (st : AggState) :
    ((details.map (fun d => (name, d))).foldl (procPair ft tt fil) st) =
      if fil ≠ "" ∧ fil ≠ name then st
      else details.foldl (procDetail ft tt name) st := by
  induction details generalizing st with
  | nil =>
    simp only [List.map_nil, List.foldl_nil]
    split <;> rfl
  | cons d ds ih =>
    simp only [List.map_cons, List.foldl_cons]
    rw [ih]
    by_cases hf : fil ≠ "" ∧ fil ≠ name
    · rw [if_pos hf, if_pos hf]
      unfold procPair
      rw [if_pos hf]
    · rw [if_neg hf, if_neg hf]
      unfold procPair
      rw [if_neg hf]

theorem procModel_eq_pairs (ft tt : GoTime) (fil : String) (st : AggState)
    (e : String × ModelSnapshot) :
    procModel ft tt fil st e =
      (e.2.details.map (fun d => (e.1, d))).foldl (procPair ft tt fil) st := by
  rw [foldl_map_pair]
  rfl

theorem foldl_flatMap_eq {α β γ : Type} (f : γ → α → γ) (g : β → List α)
    (l : List β) (init : γ) :
    ((l.flatMap g).foldl f init) = l.foldl (fun st b => (g b).foldl f st) init := by
  induction l generalizing init with
  | nil => rfl
  | cons b bs ih =>
    simp only [List.flatMap_cons, List.foldl_append, List.foldl_cons]
    rw [ih]

/-- The nested provider/model/detail loops equal one fold over the flattened
pair list. -/
theorem aggregate_eq_pairs (s : Snapshot) (fil : String) (ft tt : GoTime) :
    aggregate s fil ft tt = (flatPairs s).foldl (procPair ft tt fil) ⟨0, 0, [], []⟩ := by
  unfold aggregate flatPairs
  rw [foldl_flatMap_eq]
  have hstep : (fun (st : AggState) (api : APISnapshot) =>
      (api.models.flatMap (fun e => e.2.details.map (fun d => (e.1, d)))).foldl
        (procPair ft tt fil) st) = procAPI ft tt fil := by
    funext st api
    rw [foldl_flatMap_eq]
    unfold procAPI
    have hstep2 : (fun (st2 : AggState) (e : String × ModelSnapshot) =>
        (e.2.details.map (fun d => (e.1, d))).foldl (procPair ft tt fil) st2) =
          procModel ft tt fil := by
      funext st2 e
      rw [procModel_eq_pairs]
    rw [hstep2]
  rw [hstep]

/-- Total tokens of a pair list. -/
def tokSum (l : List (String × UsageDetail)) : Int :=
  (l.map (fun p => p.2.totalTokens)).sum

theorem foldl_procPair_totals (ft tt : GoTime) (fil : String)
    (l : List (String × UsageDetail)) (st : AggState) :
    (l.foldl (procPair ft tt fil) st).totalRequests =
        st.totalRequests + (l.filter (fun p => decide (pairMatches ft tt fil p))).length ∧
      (l.foldl (procPair ft tt fil) st).totalTokens =
        st.totalTokens + tokSum (l.filter (fun p => decide (pairMatches ft tt fil p))) := by
  induction l generalizing st with
  | nil => simp [tokSum]
  | cons p ps ih =>
    simp only [List.foldl_cons]
    by_cases hm : pairMatches ft tt fil p
    · have hps : List.filter (fun q => decide (pairMatches ft tt fil q)) (p :: ps) =
          p :: List.filter (fun q => decide (pairMatches ft tt fil q)) ps := by
        simp [hm]
      rw [hps]
      have e1 : (procPair ft tt fil st p).totalRequests = st.totalRequests + 1 := by
        unfold procPair procDetail
        rw [if_neg hm.1, if_neg hm.2]
      have e2 : (procPair ft tt fil st p).totalTokens =
          st.totalTokens + p.2.totalTokens := by
        unfold procPair procDetail
        rw [if_neg hm.1, if_neg hm.2]
      constructor
      · rw [(ih (procPair ft tt fil st p)).1, e1]
        simp only [List.length_cons]
        push_cast
        ring
      · rw [(ih (procPair ft tt fil st p)).2, e2]
        simp only [tokSum, List.map_cons, List.sum_cons]
        ring
    · have hps : List.filter (fun q => decide (pairMatches ft tt fil q)) (p :: ps) =
          List.filter (fun q => decide (pairMatches ft tt fil q)) ps := by
        simp [hm]
      rw [hps]
      have hstep : procPair ft tt fil st p = st := by
        unfold procPair procDetail
        by_cases h1 : fil ≠ "" ∧ fil ≠ p.1
        · rw [if_pos h1]
        · rw [if_neg h1]
          have hskip : windowSkip ft tt p.2.timestamp := by
            by_contra hns
            exact hm ⟨h1, hns⟩
          rw [if_pos hskip]
      rw [hstep]
      exact ih st

/-! ### Sums over the accumulator maps -/

/-- Token sum over the model map. -/
def modelTokSum (m : List (String × ModelMetrics)) : Int :=
  (m.map (fun p => p.2.tokens)).sum

/-- Request sum over the model map. -/
def modelReqSum (m : List (String × ModelMetrics)) : Int :=
  (m.map (fun p => p.2.requests)).sum

/-- Token sum over the bucket map. -/
def bucketTokSum (m : List (GoTime × TimeseriesBucket)) : Int :=
  (m.map (fun p => p.2.tokens)).sum

/-- Request sum over the bucket map. -/
def bucketReqSum (m : List (GoTime × TimeseriesBucket)) : Int :=
  (m.map (fun p => p.2.requests)).sum

theorem bumpModel_sums (name : String) (tok : Int) (m : List (String × ModelMetrics)) :
    modelTokSum (bumpModel name tok m) = modelTokSum m + tok ∧
      modelReqSum (bumpModel name tok m) = modelReqSum m + 1 := by
  induction m with
  | nil => simp [bumpModel, modelTokSum, modelReqSum]
  | cons kv rest ih =>
    obtain ⟨k, v⟩ := kv
    simp only [bumpModel]
    by_cases hk : k = name
    · rw [if_pos hk]
      simp only [modelTokSum, modelReqSum, List.map_cons, List.sum_cons]
      constructor <;> ring
    · rw [if_neg hk]
      simp only [modelTokSum, modelReqSum, List.map_cons, List.sum_cons] at *
      omega

theorem bumpBucket_sums (key : GoTime) (tok : Int) (m : List (GoTime × TimeseriesBucket)) :
    bucketTokSum (bumpBucket key tok m) = bucketTokSum m + tok ∧
      bucketReqSum (bumpBucket key tok m) = bucketReqSum m + 1 := by
  induction m with
  | nil => simp [bumpBucket, bucketTokSum, bucketReqSum]
  | cons kv rest ih =>
    obtain ⟨k, v⟩ := kv
    simp only [bumpBucket]
    by_cases hk : k = key
    · rw [if_pos hk]
      simp only [bucketTokSum, bucketReqSum, List.map_cons, List.sum_cons]
      constructor <;> ring
    · rw [if_neg hk]
      simp only [bucketTokSum, bucketReqSum, List.map_cons, List.sum_cons] at *
      omega

/-- Generic preservation of a predicate along a left fold. -/
theorem foldl_preserve {α β : Type} {P : α → Prop} (f : α → β → α) (l : List β)
    (st : α) (h0 : P st) (hs : ∀ a b, P a → P (f a b)) : P (l.foldl f st) := by
  induction l generalizing st with
  | nil => exact h0
  | cons b bs ih => exact ih (f st b) (hs st b h0)

/-- Case analysis of one traversal step: either the pair is skipped and the
state is unchanged, or it matches and all four accumulators are updated. -/
theorem procPair_eq (ft tt : GoTime) (fil : String) (st : AggState)
    (p : String × UsageDetail) :
    procPair ft tt fil st p = st ∨
      (pairMatches ft tt fil p ∧ procPair ft tt fil st p =
        { totalTokens := st.totalTokens + p.2.totalTokens
          totalRequests := st.totalRequests + 1
          modelMetricsMap := bumpModel p.1 p.2.totalTokens st.modelMetricsMap
          timeseriesMap :=
            bumpBucket p.2.timestamp.truncHour p.2.totalTokens st.timeseriesMap }) := by
  by_cases hm : pairMatches ft tt fil p
  · right
    refine ⟨hm, ?_⟩
    unfold procPair procDetail
    rw [if_neg hm.1, if_neg hm.2]
  · left
    unfold procPair procDetail
    by_cases h1 : fil ≠ "" ∧ fil ≠ p.1
    · rw [if_pos h1]
    · rw [if_neg h1]
      have hskip : windowSkip ft tt p.2.timestamp := by
        by_contra hns
        exact hm ⟨h1, hns⟩
      rw [if_pos hskip]

/-- The running totals always equal the column sums of both maps. -/
def SumInv (st : AggState) : Prop :=
  st.totalTokens = modelTokSum st.modelMetricsMap ∧
    st.totalRequests = modelReqSum st.modelMetricsMap ∧
    st.totalTokens = bucketTokSum st.timeseriesMap ∧
    st.totalRequests = bucketReqSum st.timeseriesMap

theorem procPair_SumInv (ft tt : GoTime) (fil : String) (st : AggState)
    (p : String × UsageDetail) (h : SumInv st) : SumInv (procPair ft tt fil st p) := by
  rcases procPair_eq ft tt fil st p with heq | ⟨hm, heq⟩
  · rw [heq]; exact h
  · unfold SumInv at h ⊢
    rw [heq]
    dsimp only
    obtain ⟨h1, h2, h3, h4⟩ := h
    have hbm := bumpModel_sums p.1 p.2.totalTokens st.modelMetricsMap
    have hbb := bumpBucket_sums p.2.timestamp.truncHour p.2.totalTokens st.timeseriesMap
    refine ⟨?_, ?_, ?_, ?_⟩
    · rw [hbm.1]; omega
    · rw [hbm.2]; omega
    · rw [hbb.1]; omega
    · rw [hbb.2]; omega

theorem aggregate_SumInv (s : Snapshot) (fil : String) (ft tt : GoTime) :
    SumInv (aggregate s fil ft tt) := by
  rw [aggregate_eq_pairs]
  exact foldl_preserve _ _ _
    (by constructor <;> simp [modelTokSum, modelReqSum, bucketTokSum, bucketReqSum])
    (fun a b hp => procPair_SumInv ft tt fil a b hp)

/-! ### Shape invariants of the accumulator maps -/

/-- Keys of the model map are distinct and each entry's `Model` field is its
key (the loop creates entries with `Model: modelName`). -/
def ModelMapWF (m : List (String × ModelMetrics)) : Prop :=
  (m.map Prod.fst).Nodup ∧ ∀ p ∈ m, p.2.model = p.1

/-- Keys of the bucket map are distinct, each entry's `BucketStart` is the
RFC3339 rendering of its key, and each key is hour-aligned (it was produced
by `Truncate(time.Hour)`). -/
def BucketMapWF (m : List (GoTime × TimeseriesBucket)) : Prop :=
  (m.map Prod.fst).Nodup ∧
    ∀ p ∈ m, p.2.bucketStart = fmtRFC3339 p.1 ∧ p.1.ns % 3600000000000 = 0

theorem bumpModel_keys (name : String) (tok : Int) (m : List (String × ModelMetrics)) :
    (bumpModel name tok m).map Prod.fst =
      if name ∈ m.map Prod.fst then m.map Prod.fst else m.map Prod.fst ++ [name] := by
  induction m with
  | nil => simp [bumpModel]
  | cons kv rest ih =>
    obtain ⟨k, v⟩ := kv
    simp only [bumpModel]
    by_cases hk : k = name
    · subst hk
      rw [if_pos rfl]
      simp
    · rw [if_neg hk]
      simp only [List.map_cons, List.mem_cons]
      rw [ih]
      by_cases hmem : name ∈ rest.map Prod.fst
      · rw [if_pos hmem, if_pos (Or.inr hmem)]
      · rw [if_neg hmem, if_neg (by
          intro hor
          rcases hor with h1 | h2
          · exact hk h1.symm
          · exact hmem h2)]
        simp

theorem bumpBucket_keys (key : GoTime) (tok : Int) (m : List (GoTime × TimeseriesBucket)) :
    (bumpBucket key tok m).map Prod.fst =
      if key ∈ m.map Prod.fst then m.map Prod.fst else m.map Prod.fst ++ [key] := by
  induction m with
  | nil => simp [bumpBucket]
  | cons kv rest ih =>
    obtain ⟨k, v⟩ := kv
    simp only [bumpBucket]
    by_cases hk : k = key
    · subst hk
      rw [if_pos rfl]
      simp
    · rw [if_neg hk]
      simp only [List.map_cons, List.mem_cons]
      rw [ih]
      by_cases hmem : key ∈ rest.map Prod.fst
      · rw [if_pos hmem, if_pos (Or.inr hmem)]
      · rw [if_neg hmem, if_neg (by
          intro hor
          rcases hor with h1 | h2
          · exact hk h1.symm
          · exact hmem h2)]
        simp

theorem bumpModel_vals (name : String) (tok : Int) (m : List (String × ModelMetrics))
    (hval : ∀ p ∈ m, p.2.model = p.1) :
    ∀ p ∈ bumpModel name tok m, p.2.model = p.1 := by
  induction m with
  | nil =>
    simp [bumpModel]
  | cons kv rest ih =>
    obtain ⟨k, v⟩ := kv
    simp only [bumpModel]
    by_cases hk : k = name
    · rw [if_pos hk]
      intro p hp
      rcases List.mem_cons.mp hp with hp1 | hp2
      · subst hp1
        exact hval (k, v) (List.mem_cons_self _ _)
      · exact hval p (List.mem_cons_of_mem _ hp2)
    · rw [if_neg hk]
      intro p hp
      rcases List.mem_cons.mp hp with hp1 | hp2
      · subst hp1
        exact hval (k, v) (List.mem_cons_self _ _)
      · exact ih (fun q hq => hval q (List.mem_cons_of_mem _ hq)) p hp2

theorem truncHour_aligned (t : GoTime) : t.truncHour.ns % 3600000000000 = 0 := by
  unfold GoTime.truncHour
  simp [Int.mul_emod_right]

theorem bumpBucket_vals (key : GoTime) (tok : Int) (m : List (GoTime × TimeseriesBucket))
    (halign : key.ns % 3600000000000 = 0)
    (hval : ∀ p ∈ m, p.2.bucketStart = fmtRFC3339 p.1 ∧ p.1.ns % 3600000000000 = 0) :
    ∀ p ∈ bumpBucket key tok m,
      p.2.bucketStart = fmtRFC3339 p.1 ∧ p.1.ns % 3600000000000 = 0 := by
  induction m with
  | nil =>
    simp only [bumpBucket]
    intro p hp
    rw [List.mem_singleton] at hp
    subst hp
    exact ⟨rfl, halign⟩
  | cons kv rest ih =>
    obtain ⟨k, v⟩ := kv
    simp only [bumpBucket]
    by_cases hk : k = key
    · rw [if_pos hk]
      intro p hp
      rcases List.mem_cons.mp hp with hp1 | hp2
      · subst hp1
        exact hval (k, v) (List.mem_cons_self _ _)
      · exact hval p (List.mem_cons_of_mem _ hp2)
    · rw [if_neg hk]
      intro p hp
      rcases List.mem_cons.mp hp with hp1 | hp2
      · subst hp1
        exact hval (k, v) (List.mem_cons_self _ _)
      · exact ih (fun q hq => hval q (List.mem_cons_of_mem _ hq)) p hp2

theorem bumpModel_WF (name : String) (tok : Int) (m : List (String × ModelMetrics))
    (h : ModelMapWF m) : ModelMapWF (bumpModel name tok m) := by
  obtain ⟨hnd, hval⟩ := h
  constructor
  · rw [bumpModel_keys]
    split
    · exact hnd
    · rename_i hnotmem
      rw [List.nodup_append]
      exact ⟨hnd, List.nodup_singleton name, by simpa using hnotmem⟩
  · exact bumpModel_vals name tok m hval

theorem bumpBucket_WF (key : GoTime) (tok : Int) (m : List (GoTime × TimeseriesBucket))
    (halign : key.ns % 3600000000000 = 0)
    (h : BucketMapWF m) : BucketMapWF (bumpBucket key tok m) := by
  obtain ⟨hnd, hval⟩ := h
  constructor
  · rw [bumpBucket_keys]
    split
    · exact hnd
    · rename_i hnotmem
      rw [List.nodup_append]
      exact ⟨hnd, List.nodup_singleton key, by simpa using hnotmem⟩
  · exact bumpBucket_vals key tok m halign hval

/-- Both map invariants hold throughout the aggregation. -/
def MapsWF (st : AggState) : Prop :=
  ModelMapWF st.modelMetricsMap ∧ BucketMapWF st.timeseriesMap

theorem procPair_MapsWF (ft tt : GoTime) (fil : String) (st : AggState)
    (p : String × UsageDetail) (h : MapsWF st) : MapsWF (procPair ft tt fil st p) := by
  rcases procPair_eq ft tt fil st p with heq | ⟨hm, heq⟩
  · rw [heq]; exact h
  · rw [heq]
    unfold MapsWF at h ⊢
    dsimp only
    exact ⟨bumpModel_WF _ _ _ h.1,
      bumpBucket_WF _ _ _ (truncHour_aligned p.2.timestamp) h.2⟩

theorem aggregate_MapsWF (s : Snapshot) (fil : String) (ft tt : GoTime) :
    MapsWF (aggregate s fil ft tt) := by
  rw [aggregate_eq_pairs]
  exact foldl_preserve _ _ _
    (by exact ⟨⟨List.nodup_nil, by simp⟩, ⟨List.nodup_nil, by simp⟩⟩)
    (fun a b hp => procPair_MapsWF ft tt fil a b hp)

/-! ### Injectivity of the RFC3339 rendering on hour-aligned times -/

theorem padDigits_inj (w a b : Nat) (h : padDigits w a = padDigits w b) : a = b := by
  have hd := congrArg decodeDigits h
  rwa [decodeDigits_padDigits, decodeDigits_padDigits] at hd

theorem padDigits_ne_nil (w n : Nat) : padDigits w n ≠ [] := by
  intro h
  have hlen := congrArg List.length h
  simp only [padDigits, List.length_append, List.length_replicate, List.length_nil] at hlen
  exact natDigits_ne_nil n (List.length_eq_zero.mp (by omega))

theorem padDigits_head_isDigit (w n : Nat) :
    ∃ c rest, padDigits w n = c :: rest ∧ c.isDigit = true := by
  obtain ⟨c, rest, hcr⟩ := List.exists_cons_of_ne_nil (padDigits_ne_nil w n)
  refine ⟨c, rest, hcr, padDigits_isDigit w n c ?_⟩
  rw [hcr]
  exact List.mem_cons_self _ _

theorem mem_of_getLast_some {l : List Char} {c : Char} (h : l.getLast? = some c) :
    c ∈ l := by
  obtain ⟨hne, heq⟩ := List.mem_getLast?_eq_getLast (by rw [h]; rfl)
  subst heq
  exact List.getLast_mem hne

theorem padDigits_getLast_isDigit (w n : Nat) :
    ∃ c, (padDigits w n).getLast? = some c ∧ c.isDigit = true := by
  cases hgl : (padDigits w n).getLast? with
  | none =>
    rw [List.getLast?_eq_none_iff] at hgl
    exact absurd hgl (padDigits_ne_nil w n)
  | some c =>
    exact ⟨c, rfl, padDigits_isDigit w n c (mem_of_getLast_some hgl)⟩

theorem yearChars_inj (y1 y2 : Int) (h : yearChars y1 = yearChars y2) : y1 = y2 := by
  unfold yearChars at h
  by_cases h1 : y1 < 0 <;> by_cases h2 : y2 < 0
  · rw [if_pos h1, if_pos h2, List.cons.injEq] at h
    have := padDigits_inj 4 _ _ h.2
    omega
  · rw [if_pos h1, if_neg h2] at h
    obtain ⟨c, rest, hcr, hdig⟩ := padDigits_head_isDigit 4 y2.toNat
    rw [hcr, List.cons.injEq] at h
    have hc : c ≠ '-' := by
      intro he
      subst he
      exact absurd hdig (by decide)
    exact absurd h.1.symm hc
  · rw [if_neg h1, if_pos h2] at h
    obtain ⟨c, rest, hcr, hdig⟩ := padDigits_head_isDigit 4 y1.toNat
    rw [hcr, List.cons.injEq] at h
    have hc : c ≠ '-' := by
      intro he
      subst he
      exact absurd hdig (by decide)
    exact absurd h.1 hc
  · rw [if_neg h1, if_neg h2] at h
    have := padDigits_inj 4 _ _ h
    omega

theorem zoneChars_getLast_digit (o : Int) (ho : o ≠ 0) :
    ∃ c, (zoneChars o).getLast? = some c ∧ c.isDigit = true := by
  unfold zoneChars
  rw [if_neg ho]
  by_cases hpos : 0 < o
  · rw [if_pos hpos]
    obtain ⟨c, hcl, hdig⟩ := padDigits_getLast_isDigit 2 (o.toNat % 3600 / 60)
    refine ⟨c, ?_, hdig⟩
    simp [List.getLast?_cons, List.getLast?_append, hcl]
  · rw [if_neg hpos]
    obtain ⟨c, hcl, hdig⟩ := padDigits_getLast_isDigit 2 ((-o).toNat % 3600 / 60)
    refine ⟨c, ?_, hdig⟩
    simp [List.getLast?_cons, List.getLast?_append, hcl]

theorem zoneChars_length (o : Int) (ho : o ≠ 0) (hlb : -86400 < o) (hub : o < 86400) :
    (zoneChars o).length = 6 := by
  unfold zoneChars
  rw [if_neg ho]
  by_cases hpos : 0 < o
  · rw [if_pos hpos]
    have hA : o.toNat / 3600 < 100 := by omega
    have hB : o.toNat % 3600 / 60 < 100 := by omega
    simp [padDigits_two_length _ hA, padDigits_two_length _ hB]
  · rw [if_neg hpos]
    have hA : (-o).toNat / 3600 < 100 := by omega
    have hB : (-o).toNat % 3600 / 60 < 100 := by omega
    simp [padDigits_two_length _ hA, padDigits_two_length _ hB]

theorem zoneChars_inj_append (o1 o2 : Int)
    (hm1 : o1 % 60 = 0) (hl1 : -86400 < o1) (hu1 : o1 < 86400)
    (hm2 : o2 % 60 = 0) (hl2 : -86400 < o2) (hu2 : o2 < 86400)
    (a1 a2 : List Char) (h : a1 ++ zoneChars o1 = a2 ++ zoneChars o2) :
    a1 = a2 ∧ o1 = o2 := by
  by_cases ho1 : o1 = 0 <;> by_cases ho2 : o2 = 0
  · subst ho1
    subst ho2
    exact ⟨(List.append_inj' h rfl).1, rfl⟩
  · exfalso
    subst ho1
    obtain ⟨c, hcl, hdig⟩ := zoneChars_getLast_digit o2 ho2
    have hg := congrArg List.getLast? h
    rw [List.getLast?_append, List.getLast?_append, hcl] at hg
    have hz : (zoneChars 0).getLast? = some 'Z' := rfl
    rw [hz] at hg
    have hzc : some 'Z' = some c := hg
    cases hzc
    exact absurd hdig (by decide)
  · exfalso
    subst ho2
    obtain ⟨c, hcl, hdig⟩ := zoneChars_getLast_digit o1 ho1
    have hg := congrArg List.getLast? h
    rw [List.getLast?_append, List.getLast?_append, hcl] at hg
    have hz : (zoneChars 0).getLast? = some 'Z' := rfl
    rw [hz] at hg
    have hzc : some c = some 'Z' := hg
    have hc : c = 'Z' := by injection hzc
    subst hc
    exact absurd hdig (by decide)
  · obtain ⟨ha, hz⟩ := List.append_inj' h
      (by rw [zoneChars_length o1 ho1 hl1 hu1, zoneChars_length o2 ho2 hl2 hu2])
    refine ⟨ha, ?_⟩
    unfold zoneChars at hz
    rw [if_neg ho1, if_neg ho2] at hz
    by_cases hp1 : 0 < o1 <;> by_cases hp2 : 0 < o2
    · rw [if_pos hp1, if_pos hp2, List.cons.injEq] at hz
      obtain ⟨-, hz2⟩ := hz
      obtain ⟨hA, hB⟩ := List.append_inj hz2
        (by rw [padDigits_two_length _ (by omega : o1.toNat / 3600 < 100),
          padDigits_two_length _ (by omega : o2.toNat / 3600 < 100)])
      have hAv := padDigits_inj 2 _ _ hA
      rw [List.cons.injEq] at hB
      have hBv := padDigits_inj 2 _ _ hB.2
      omega
    · rw [if_pos hp1, if_neg hp2, List.cons.injEq] at hz
      exact absurd hz.1 (by decide)
    · rw [if_neg hp1, if_pos hp2, List.cons.injEq] at hz
      exact absurd hz.1 (by decide)
    · rw [if_neg hp1, if_neg hp2, List.cons.injEq] at hz
      obtain ⟨-, hz2⟩ := hz
      obtain ⟨hA, hB⟩ := List.append_inj hz2
        (by rw [padDigits_two_length _ (by omega : (-o1).toNat / 3600 < 100),
          padDigits_two_length _ (by omega : (-o2).toNat / 3600 < 100)])
      have hAv := padDigits_inj 2 _ _ hA
      rw [List.cons.injEq] at hB
      have hBv := padDigits_inj 2 _ _ hB.2
      omega

/-- On hour-aligned instants (all bucket keys are such), the RFC3339
rendering is injective, so distinct bucket keys have distinct
`bucket_start` strings. -/
theorem fmtRFC3339List_inj (t1 t2 : GoTime)
    (ha1 : t1.ns % 3600000000000 = 0) (ha2 : t2.ns % 3600000000000 = 0)
    (heq : fmtRFC3339List t1 = fmtRFC3339List t2) : t1 = t2 := by
  simp only [fmtRFC3339List] at heq
  set W1 : Int := t1.ns / 1000000000 + t1.off with hW1
  set D1 : Int := W1 / 86400 with hD1
  set S1 : Nat := (W1 - 86400 * D1).toNat with hS1
  set C1 := civilFromDays D1 with hC1
  set W2 : Int := t2.ns / 1000000000 + t2.off with hW2
  set D2 : Int := W2 / 86400 with hD2
  set S2 : Nat := (W2 - 86400 * D2).toNat with hS2
  set C2 := civilFromDays D2 with hC2
  have hb1 := civilFromDays_spec D1
  have hb2 := civilFromDays_spec D2
  rw [← hC1] at hb1
  rw [← hC2] at hb2
  obtain ⟨hrt1, hmo1l, hmo1u, hdy1l, hdy1u⟩ := hb1
  obtain ⟨hrt2, hmo2l, hmo2u, hdy2l, hdy2u⟩ := hb2
  have hS1b : S1 ≤ 86399 := by omega
  have hS2b : S2 ≤ 86399 := by omega
  have heq2 : (yearChars C1.1 ++ ('-' :: (padDigits 2 C1.2.1 ++ ('-' ::
      (padDigits 2 C1.2.2 ++ ('T' :: (padDigits 2 (S1 / 3600) ++ (':' ::
      (padDigits 2 (S1 % 3600 / 60) ++ (':' :: padDigits 2 (S1 % 60))))))))))) ++
        zoneChars t1.off =
      (yearChars C2.1 ++ ('-' :: (padDigits 2 C2.2.1 ++ ('-' ::
      (padDigits 2 C2.2.2 ++ ('T' :: (padDigits 2 (S2 / 3600) ++ (':' ::
      (padDigits 2 (S2 % 3600 / 60) ++ (':' :: padDigits 2 (S2 % 60))))))))))) ++
        zoneChars t2.off := by
    simpa [List.append_assoc, List.cons_append] using heq
  obtain ⟨hA, hoff⟩ := zoneChars_inj_append t1.off t2.off t1.offMul t1.offLb t1.offUb
    t2.offMul t2.offLb t2.offUb _ _ heq2
  obtain ⟨hY, hRest⟩ := List.append_inj' hA (by
    simp only [List.length_cons, List.length_append,
      padDigits_two_length _ (show C1.2.1 < 100 by omega),
      padDigits_two_length _ (show C1.2.2 < 100 by omega),
      padDigits_two_length _ (show S1 / 3600 < 100 by omega),
      padDigits_two_length _ (show S1 % 3600 / 60 < 100 by omega),
      padDigits_two_length _ (show S1 % 60 < 100 by omega),
      padDigits_two_length _ (show C2.2.1 < 100 by omega),
      padDigits_two_length _ (show C2.2.2 < 100 by omega),
      padDigits_two_length _ (show S2 / 3600 < 100 by omega),
      padDigits_two_length _ (show S2 % 3600 / 60 < 100 by omega),
      padDigits_two_length _ (show S2 % 60 < 100 by omega)])
  have hYv := yearChars_inj _ _ hY
  rw [List.cons.injEq] at hRest
  obtain ⟨-, hR1⟩ := hRest
  obtain ⟨hMO, hR2⟩ := List.append_inj hR1 (by
    rw [padDigits_two_length _ (show C1.2.1 < 100 by omega),
      padDigits_two_length _ (show C2.2.1 < 100 by omega)])
  have hMOv := padDigits_inj 2 _ _ hMO
  rw [List.cons.injEq] at hR2
  obtain ⟨-, hR3⟩ := hR2
  obtain ⟨hDY, hR4⟩ := List.append_inj hR3 (by
    rw [padDigits_two_length _ (show C1.2.2 < 100 by omega),
      padDigits_two_length _ (show C2.2.2 < 100 by omega)])
  have hDYv := padDigits_inj 2 _ _ hDY
  rw [List.cons.injEq] at hR4
  obtain ⟨-, hR5⟩ := hR4
  obtain ⟨hHH, hR6⟩ := List.append_inj hR5 (by
    rw [padDigits_two_length _ (show S1 / 3600 < 100 by omega),
      padDigits_two_length _ (show S2 / 3600 < 100 by omega)])
  have hHHv := padDigits_inj 2 _ _ hHH
  rw [List.cons.injEq] at hR6
  obtain ⟨-, hR7⟩ := hR6
  obtain ⟨hMI, hR8⟩ := List.append_inj hR7 (by
    rw [padDigits_two_length _ (show S1 % 3600 / 60 < 100 by omega),
      padDigits_two_length _ (show S2 % 3600 / 60 < 100 by omega)])
  have hMIv := padDigits_inj 2 _ _ hMI
  rw [List.cons.injEq] at hR8
  obtain ⟨-, hSS⟩ := hR8
  have hSSv := padDigits_inj 2 _ _ hSS
  have hDeq : D1 = D2 := by
    rw [← hrt1, ← hrt2, hYv, hMOv, hDYv]
  have hSeq : S1 = S2 := by omega
  have hWeq : W1 = W2 := by omega
  have hns : t1.ns = t2.ns := by omega
  exact GoTime.ext_iff'.mpr ⟨hns, hoff⟩

/-! ### Properties of the finished response -/

theorem getMetricsCore_sums (s : Snapshot) (fil : String) (ft tt : GoTime) :
    ((getMetricsCore s fil ft tt).byModel.map (fun m => m.tokens)).sum =
        (getMetricsCore s fil ft tt).totals.tokens ∧
      ((getMetricsCore s fil ft tt).byModel.map (fun m => m.requests)).sum =
        (getMetricsCore s fil ft tt).totals.requests ∧
      ((getMetricsCore s fil ft tt).timeseries.map (fun b => b.tokens)).sum =
        (getMetricsCore s fil ft tt).totals.tokens ∧
      ((getMetricsCore s fil ft tt).timeseries.map (fun b => b.requests)).sum =
        (getMetricsCore s fil ft tt).totals.requests := by
  obtain ⟨h1, h2, h3, h4⟩ := aggregate_SumInv s fil ft tt
  unfold getMetricsCore finalize
  dsimp only
  refine ⟨?_, ?_, ?_, ?_⟩
  · have hp : ((List.insertionSort (fun (a b : ModelMetrics) => a.model ≤ b.model)
        ((aggregate s fil ft tt).modelMetricsMap.map Prod.snd)).map
          (fun m => m.tokens)).sum =
        (((aggregate s fil ft tt).modelMetricsMap.map Prod.snd).map
          (fun m => m.tokens)).sum :=
      List.Perm.sum_eq ((List.perm_insertionSort _ _).map (fun (m : ModelMetrics) => m.tokens))
    rw [hp, List.map_map, h1]
    rfl
  · have hp : ((List.insertionSort (fun (a b : ModelMetrics) => a.model ≤ b.model)
        ((aggregate s fil ft tt).modelMetricsMap.map Prod.snd)).map
          (fun m => m.requests)).sum =
        (((aggregate s fil ft tt).modelMetricsMap.map Prod.snd).map
          (fun m => m.requests)).sum :=
      List.Perm.sum_eq ((List.perm_insertionSort _ _).map (fun (m : ModelMetrics) => m.requests))
    rw [hp, List.map_map, h2]
    rfl
  · have hp : ((List.insertionSort
        (fun (a b : TimeseriesBucket) => a.bucketStart ≤ b.bucketStart)
        ((aggregate s fil ft tt).timeseriesMap.map Prod.snd)).map
          (fun b => b.tokens)).sum =
        (((aggregate s fil ft tt).timeseriesMap.map Prod.snd).map
          (fun b => b.tokens)).sum :=
      List.Perm.sum_eq ((List.perm_insertionSort _ _).map (fun (b : TimeseriesBucket) => b.tokens))
    rw [hp, List.map_map, h3]
    rfl
  · have hp : ((List.insertionSort
        (fun (a b : TimeseriesBucket) => a.bucketStart ≤ b.bucketStart)
        ((aggregate s fil ft tt).timeseriesMap.map Prod.snd)).map
          (fun b => b.requests)).sum =
        (((aggregate s fil ft tt).timeseriesMap.map Prod.snd).map
          (fun b => b.requests)).sum :=
      List.Perm.sum_eq ((List.perm_insertionSort _ _).map (fun (b : TimeseriesBucket) => b.requests))
    rw [hp, List.map_map, h4]
    rfl

theorem getMetricsCore_byModel_sorted (s : Snapshot) (fil : String) (ft tt : GoTime) :
    (getMetricsCore s fil ft tt).byModel.Pairwise (fun a b => a.model < b.model) := by
  obtain ⟨⟨hnd, hval⟩, -⟩ := aggregate_MapsWF s fil ft tt
  unfold getMetricsCore finalize
  dsimp only
  haveI ht : IsTrans ModelMetrics (fun a b => a.model ≤ b.model) :=
    ⟨fun a b c hab hbc => le_trans hab hbc⟩
  haveI hto : IsTotal ModelMetrics (fun a b => a.model ≤ b.model) :=
    ⟨fun a b => le_total a.model b.model⟩
  have hsorted := List.sorted_insertionSort (fun (a b : ModelMetrics) => a.model ≤ b.model)
    ((aggregate s fil ft tt).modelMetricsMap.map Prod.snd)
  have hmodels : ((aggregate s fil ft tt).modelMetricsMap.map Prod.snd).map
      (fun m => m.model) = (aggregate s fil ft tt).modelMetricsMap.map Prod.fst := by
    rw [List.map_map]
    exact List.map_congr_left (fun p hp => hval p hp)
  have hndv : (((aggregate s fil ft tt).modelMetricsMap.map Prod.snd).map
      (fun m => m.model)).Nodup := by
    rw [hmodels]
    exact hnd
  have hnds : ((List.insertionSort (fun (a b : ModelMetrics) => a.model ≤ b.model)
      ((aggregate s fil ft tt).modelMetricsMap.map Prod.snd)).map
        (fun m => m.model)).Nodup := by
    exact ((List.perm_insertionSort _ _).map (fun (m : ModelMetrics) => m.model)).nodup_iff.mpr hndv
  have hne := (List.pairwise_map).mp hnds
  have hcomb := List.Pairwise.and hsorted hne
  exact hcomb.imp (fun hab => lt_of_le_of_ne hab.1 hab.2)

theorem getMetricsCore_timeseries_sorted (s : Snapshot) (fil : String) (ft tt : GoTime) :
    (getMetricsCore s fil ft tt).timeseries.Pairwise
      (fun a b => a.bucketStart < b.bucketStart) := by
  obtain ⟨-, ⟨hnd, hval⟩⟩ := aggregate_MapsWF s fil ft tt
  unfold getMetricsCore finalize
  dsimp only
  haveI ht : IsTrans TimeseriesBucket (fun a b => a.bucketStart ≤ b.bucketStart) :=
    ⟨fun a b c hab hbc => le_trans hab hbc⟩
  haveI hto : IsTotal TimeseriesBucket (fun a b => a.bucketStart ≤ b.bucketStart) :=
    ⟨fun a b => le_total a.bucketStart b.bucketStart⟩
  have hsorted := List.sorted_insertionSort
    (fun (a b : TimeseriesBucket) => a.bucketStart ≤ b.bucketStart)
    ((aggregate s fil ft tt).timeseriesMap.map Prod.snd)
  have hndv : (((aggregate s fil ft tt).timeseriesMap.map Prod.snd).map
      (fun b => b.bucketStart)).Nodup := by
    rw [List.map_map]
    have hmap : (aggregate s fil ft tt).timeseriesMap.map
        ((fun b => b.bucketStart) ∘ Prod.snd) =
        (aggregate s fil ft tt).timeseriesMap.map (fun p => fmtRFC3339 p.1) := by
      exact List.map_congr_left (fun p hp => (hval p hp).1)
    rw [hmap]
    have hcomp : (aggregate s fil ft tt).timeseriesMap.map (fun p => fmtRFC3339 p.1) =
        ((aggregate s fil ft tt).timeseriesMap.map Prod.fst).map fmtRFC3339 := by
      rw [List.map_map]
      rfl
    rw [hcomp]
    refine List.Nodup.map_on ?_ hnd
    intro x hx y hy hxy
    have hxa : x.ns % 3600000000000 = 0 := by
      obtain ⟨p, hp, hpeq⟩ := List.mem_map.mp hx
      exact hpeq ▸ (hval p hp).2
    have hya : y.ns % 3600000000000 = 0 := by
      obtain ⟨p, hp, hpeq⟩ := List.mem_map.mp hy
      exact hpeq ▸ (hval p hp).2
    exact fmtRFC3339List_inj x y hxa hya (by
      have := congrArg String.data hxy
      simpa [fmtRFC3339] using this)
  have hnds : ((List.insertionSort
      (fun (a b : TimeseriesBucket) => a.bucketStart ≤ b.bucketStart)
      ((aggregate s fil ft tt).timeseriesMap.map Prod.snd)).map
        (fun b => b.bucketStart)).Nodup := by
    exact ((List.perm_insertionSort _ _).map (fun (b : TimeseriesBucket) => b.bucketStart)).nodup_iff.mpr hndv
  have hne := (List.pairwise_map).mp hnds
  have hcomb := List.Pairwise.and hsorted hne
  exact hcomb.imp (fun hab => lt_of_le_of_ne hab.1 hab.2)

theorem getMetricsCore_totals (s : Snapshot) (fil : String) (ft tt : GoTime) :
    (getMetricsCore s fil ft tt).totals.requests =
        ((flatPairs s).filter (fun p => decide (pairMatches ft tt fil p))).length ∧
      (getMetricsCore s fil ft tt).totals.tokens =
        tokSum ((flatPairs s).filter (fun p => decide (pairMatches ft tt fil p))) := by
  unfold getMetricsCore finalize
  dsimp only
  rw [aggregate_eq_pairs]
  have htot := foldl_procPair_totals ft tt fil (flatPairs s) ⟨0, 0, [], []⟩
  constructor
  · rw [htot.1]
    simp
  · rw [htot.2]
    simp

theorem foldl_procPair_nomatch (ft tt : GoTime) (fil : String)
    (l : List (String × UsageDetail)) (st : AggState)
    (h : ∀ p ∈ l, ¬ pairMatches ft tt fil p) :
    l.foldl (procPair ft tt fil) st = st := by
  induction l generalizing st with
  | nil => rfl
  | cons p ps ih =>
    simp only [List.foldl_cons]
    have hstep : procPair ft tt fil st p = st := by
      rcases procPair_eq ft tt fil st p with heq | ⟨hm, -⟩
      · exact heq
      · exact absurd hm (h p (List.mem_cons_self _ _))
    rw [hstep]
    exact ih st (fun q hq => h q (List.mem_cons_of_mem _ hq))

theorem bumpBucket_mem_self (key : GoTime) (tok : Int)
    (m : List (GoTime × TimeseriesBucket)) :
    key ∈ (bumpBucket key tok m).map Prod.fst := by
  rw [bumpBucket_keys]
  split
  · assumption
  · simp

theorem bumpBucket_mem_mono (key : GoTime) (tok : Int)
    (m : List (GoTime × TimeseriesBucket)) (k : GoTime)
    (h : k ∈ m.map Prod.fst) : k ∈ (bumpBucket key tok m).map Prod.fst := by
  rw [bumpBucket_keys]
  split
  · exact h
  · exact List.mem_append_left _ h

theorem procPair_bucket_mono (ft tt : GoTime) (fil : String) (st : AggState)
    (p : String × UsageDetail) (k : GoTime)
    (h : k ∈ st.timeseriesMap.map Prod.fst) :
    k ∈ (procPair ft tt fil st p).timeseriesMap.map Prod.fst := by
  rcases procPair_eq ft tt fil st p with heq | ⟨-, heq⟩
  · rw [heq]; exact h
  · rw [heq]
    exact bumpBucket_mem_mono _ _ _ _ h

theorem foldl_bucket_mem (ft tt : GoTime) (fil : String)
    (l : List (String × UsageDetail)) (st : AggState) (p : String × UsageDetail)
    (hp : p ∈ l) (hm : pairMatches ft tt fil p) :
    p.2.timestamp.truncHour ∈
      ((l.foldl (procPair ft tt fil) st).timeseriesMap.map Prod.fst) := by
  induction l generalizing st with
  | nil => cases hp
  | cons q qs ih =>
    simp only [List.foldl_cons]
    rcases List.mem_cons.mp hp with heq | hmem
    · subst heq
      refine foldl_preserve
        (P := fun st2 => p.2.timestamp.truncHour ∈ st2.timeseriesMap.map Prod.fst)
        (procPair ft tt fil) qs (procPair ft tt fil st p) ?_ ?_
      · have hstep : procPair ft tt fil st p =
            { totalTokens := st.totalTokens + p.2.totalTokens
              totalRequests := st.totalRequests + 1
              modelMetricsMap := bumpModel p.1 p.2.totalTokens st.modelMetricsMap
              timeseriesMap :=
                bumpBucket p.2.timestamp.truncHour p.2.totalTokens st.timeseriesMap } := by
          unfold procPair procDetail
          rw [if_neg hm.1, if_neg hm.2]
        rw [hstep]
        exact bumpBucket_mem_self _ _ _
      · exact fun a b hmem2 => procPair_bucket_mono ft tt fil a b _ hmem2
    · exact ih (procPair ft tt fil st q) hmem

theorem getMetricsCore_bucket_mem (s : Snapshot) (fil : String) (ft tt : GoTime)
    (p : String × UsageDetail) (hp : p ∈ flatPairs s)
    (hm : pairMatches ft tt fil p) :
    fmtRFC3339 p.2.timestamp.truncHour ∈
      (getMetricsCore s fil ft tt).timeseries.map (fun b => b.bucketStart) := by
  have hwf := (aggregate_MapsWF s fil ft tt).2
  have hkey : p.2.timestamp.truncHour ∈
      (aggregate s fil ft tt).timeseriesMap.map Prod.fst := by
    rw [aggregate_eq_pairs]
    exact foldl_bucket_mem ft tt fil (flatPairs s) ⟨0, 0, [], []⟩ p hp hm
  obtain ⟨pr, hpr, hfst⟩ := List.mem_map.mp hkey
  have hsnd : pr.2 ∈ (aggregate s fil ft tt).timeseriesMap.map Prod.snd :=
    List.mem_map_of_mem Prod.snd hpr
  have hmem2 : pr.2 ∈ (getMetricsCore s fil ft tt).timeseries := by
    unfold getMetricsCore finalize
    dsimp only
    exact (List.mem_insertionSort _).mpr hsnd
  have hbs : pr.2.bucketStart = fmtRFC3339 p.2.timestamp.truncHour := by
    rw [(hwf.2 pr hpr).1, hfst]
  rw [← hbs]
  exact List.mem_map_of_mem (fun b => b.bucketStart) hmem2

theorem getMetricsCore_bucket_shape (s : Snapshot) (fil : String) (ft tt : GoTime)
    (b : TimeseriesBucket) (hb : b ∈ (getMetricsCore s fil ft tt).timeseries) :
    ∃ k : GoTime, k.ns % 3600000000000 = 0 ∧ b.bucketStart = fmtRFC3339 k := by
  have hwf := (aggregate_MapsWF s fil ft tt).2
  unfold getMetricsCore finalize at hb
  dsimp only at hb
  have hb2 := (List.mem_insertionSort _).mp hb
  obtain ⟨pr, hpr, hsnd⟩ := List.mem_map.mp hb2
  exact ⟨pr.1, (hwf.2 pr hpr).2, by rw [← hsnd, (hwf.2 pr hpr).1]⟩

/-! ### Dispatch of `GetMetrics` on the query string -/

theorem getMetrics_default (s : Snapshot) (q : Query) (now : GoTime)
    (hf : q.fromStr = "") (ht : q.toStr = "") :
    getMetrics s q now =
      .ok (getMetricsCore s q.modelFilter (now.addSecs (-86400)) now) := by
  unfold getMetrics
  rw [if_pos ⟨hf, ht⟩]

theorem timeParse_of_strict (s : String) (t : GoTime)
    (h : parseRFC3339 s = some t) : timeParse s = some t := by
  unfold timeParse
  rw [h]

theorem getMetrics_parsed (s : Snapshot) (q : Query) (now ft tt : GoTime)
    (hne : ¬ (q.fromStr = "" ∧ q.toStr = ""))
    (hf : (if q.fromStr = "" then some GoTime.goZero
      else timeParse q.fromStr) = some ft)
    (ht : (if q.toStr = "" then some GoTime.goZero
      else timeParse q.toStr) = some tt) :
    getMetrics s q now = .ok (getMetricsCore s q.modelFilter ft tt) := by
  unfold getMetrics
  rw [if_neg hne, hf, ht]

theorem getMetrics_badFrom (s : Snapshot) (q : Query) (now : GoTime)
    (hne : q.fromStr ≠ "") (hf : timeParse q.fromStr = none) :
    getMetrics s q now = .error "invalid 'from' timestamp format" := by
  unfold getMetrics
  rw [if_neg (by intro hand; exact hne hand.1), if_neg hne, hf]

theorem getMetrics_badTo (s : Snapshot) (q : Query) (now ft : GoTime)
    (hto : q.toStr ≠ "")
    (hf : (if q.fromStr = "" then some GoTime.goZero
      else timeParse q.fromStr) = some ft)
    (ht : timeParse q.toStr = none) :
    getMetrics s q now = .error "invalid 'to' timestamp format" := by
  unfold getMetrics
  rw [if_neg (by intro hand; exact hto hand.2), hf, if_neg hto, ht]

theorem getMetrics_ok_shape (s : Snapshot) (q : Query) (now : GoTime)
    (resp : MetricsResponse) (h : getMetrics s q now = .ok resp) :
    ∃ ft tt, resp = getMetricsCore s q.modelFilter ft tt := by
  unfold getMetrics at h
  split at h
  · exact ⟨_, _, (Except.ok.inj h).symm⟩
  · split at h
    · exact absurd h (by simp)
    · split at h
      · exact absurd h (by simp)
      · exact ⟨_, _, (Except.ok.inj h).symm⟩

/-! ### Concrete inputs used by the witnesses -/

instance {ε α : Type} [DecidableEq ε] [DecidableEq α] : DecidableEq (Except ε α) :=
  fun a b =>
  match a, b with
  | .ok x, .ok y =>
    if h : x = y then .isTrue (by rw [h]) else .isFalse (fun he => h (Except.ok.inj he))
  | .error e1, .error e2 =>
    if h : e1 = e2 then .isTrue (by rw [h]) else .isFalse (fun he => h (Except.error.inj he))
  | .ok _, .error _ => .isFalse (fun he => Except.noConfusion he)
  | .error _, .ok _ => .isFalse (fun he => Except.noConfusion he)

/-- Parse helper for building concrete test times. -/
def witTime (s : String) : GoTime := (parseRFC3339 s).getD GoTime.goZero

/-- A one-provider, one-model snapshot with two details in the same hour. -/
def witSnap : Snapshot :=
  ⟨[⟨[("gpt", ⟨[⟨witTime "2024-01-01T10:05:00Z", 100⟩,
    ⟨witTime "2024-01-01T10:50:00Z", 50⟩]⟩)]⟩]⟩

/-- An explicit-bounds query covering the snapshot's day. -/
def witQuery : Query := ⟨"2024-01-01T00:00:00Z", "2024-01-01T23:59:59Z", ""⟩

/-- The report `GetMetrics` produces for `witSnap` and `witQuery`. -/
def witResp : MetricsResponse :=
  ⟨⟨150, 2⟩, [⟨"gpt", 150, 2⟩], [⟨"2024-01-01T10:00:00Z", 150, 2⟩]⟩

/-! ### The claims -/

/-- C1: for every snapshot and every query that passes validation, the
returned totals equal the column sums of `by_model` and of `timeseries`,
for both requests and tokens. -/
theorem claim_C1 (s : Snapshot) (q : Query) (now : GoTime) (resp : MetricsResponse)
    (h : getMetrics s q now = .ok resp) :
    (resp.byModel.map (fun m => m.requests)).sum = resp.totals.requests ∧
      (resp.byModel.map (fun m => m.tokens)).sum = resp.totals.tokens ∧
      (resp.timeseries.map (fun b => b.requests)).sum = resp.totals.requests ∧
      (resp.timeseries.map (fun b => b.tokens)).sum = resp.totals.tokens := by
  obtain ⟨ft, tt, heq⟩ := getMetrics_ok_shape s q now resp h
  subst heq
  obtain ⟨h1, h2, h3, h4⟩ := getMetricsCore_sums s q.modelFilter ft tt
  exact ⟨h2, h1, h4, h3⟩

theorem claim_C1_witness :
    (witResp.byModel.map (fun m => m.requests)).sum = witResp.totals.requests ∧
      (witResp.byModel.map (fun m => m.tokens)).sum = witResp.totals.tokens ∧
      (witResp.timeseries.map (fun b => b.requests)).sum = witResp.totals.requests ∧
      (witResp.timeseries.map (fun b => b.tokens)).sum = witResp.totals.tokens :=
  claim_C1 witSnap witQuery GoTime.goZero witResp (by decide)

/-- C4: a supplied `from` (resp. `to`) rejected by `time.Parse(time.RFC3339,
·)` — the strict RFC3339 parse and its lenient layout-parser fallback, both
modelled by `timeParse` — makes the call fail with exactly the documented
error message, and the outcome is the same for every snapshot (validation
happens before any traversal), so no report, partial or otherwise, is
produced. -/
theorem claim_C4 (s1 s2 : Snapshot) (q : Query) (now : GoTime) :
    (q.fromStr ≠ "" → timeParse q.fromStr = none →
      getMetrics s1 q now = .error "invalid 'from' timestamp format" ∧
        getMetrics s1 q now = getMetrics s2 q now) ∧
    (q.toStr ≠ "" → timeParse q.toStr = none →
      (if q.fromStr = "" then some GoTime.goZero
        else timeParse q.fromStr).isSome →
      getMetrics s1 q now = .error "invalid 'to' timestamp format" ∧
        getMetrics s1 q now = getMetrics s2 q now) := by
  constructor
  · intro hne hf
    have h1 := getMetrics_badFrom s1 q now hne hf
    have h2 := getMetrics_badFrom s2 q now hne hf
    exact ⟨h1, by rw [h1, h2]⟩
  · intro hto hpt hsome
    obtain ⟨ft, hft⟩ := Option.isSome_iff_exists.mp hsome
    have h1 := getMetrics_badTo s1 q now ft hto hft hpt
    have h2 := getMetrics_badTo s2 q now ft hto hft hpt
    exact ⟨h1, by rw [h1, h2]⟩

theorem claim_C4_witness :
    getMetrics witSnap ⟨"not-a-date", "", ""⟩ GoTime.goZero =
        .error "invalid 'from' timestamp format" ∧
      getMetrics witSnap ⟨"not-a-date", "", ""⟩ GoTime.goZero =
        getMetrics ⟨[]⟩ ⟨"not-a-date", "", ""⟩ GoTime.goZero :=
  (claim_C4 witSnap ⟨[]⟩ ⟨"not-a-date", "", ""⟩ GoTime.goZero).1
    (by decide) (by decide)

/-- C5: a call with neither bound supplied produces exactly the report of
the aggregation run with the explicit instants `from = now - 24h` and
`to = now`, where `now` is the clock reading at the moment of the call. -/
theorem claim_C5 (s : Snapshot) (q : Query) (now : GoTime)
    (hf : q.fromStr = "") (ht : q.toStr = "") :
    getMetrics s q now =
        .ok (getMetricsCore s q.modelFilter (now.addSecs (-86400)) now) ∧
      (now.addSecs (-86400)).ns = now.ns - 86400 * 1000000000 ∧
      (now.addSecs (-86400)).off = now.off := by
  refine ⟨getMetrics_default s q now hf ht, ?_, rfl⟩
  unfold GoTime.addSecs
  dsimp only
  ring

theorem claim_C5_witness :
    getMetrics witSnap ⟨"", "", ""⟩ (witTime "2024-01-01T12:00:00Z") =
        .ok (getMetricsCore witSnap ""
          ((witTime "2024-01-01T12:00:00Z").addSecs (-86400))
          (witTime "2024-01-01T12:00:00Z")) ∧
      ((witTime "2024-01-01T12:00:00Z").addSecs (-86400)).ns =
        (witTime "2024-01-01T12:00:00Z").ns - 86400 * 1000000000 ∧
      ((witTime "2024-01-01T12:00:00Z").addSecs (-86400)).off =
        (witTime "2024-01-01T12:00:00Z").off :=
  claim_C5 witSnap ⟨"", "", ""⟩ (witTime "2024-01-01T12:00:00Z") rfl rfl

/-- C6: in every successfully produced report, `by_model` is strictly
ascending by model name and `timeseries` is strictly ascending by
`bucket_start` (String order here is codepoint order, which for the UTF-8
strings Go compares bytewise is the same order); strict ascent entails that
no two entries share a model name or a bucket_start. -/
theorem claim_C6 (s : Snapshot) (q : Query) (now : GoTime) (resp : MetricsResponse)
    (h : getMetrics s q now = .ok resp) :
    resp.byModel.Pairwise (fun a b => a.model < b.model) ∧
      resp.timeseries.Pairwise (fun a b => a.bucketStart < b.bucketStart) := by
  obtain ⟨ft, tt, heq⟩ := getMetrics_ok_shape s q now resp h
  subst heq
  exact ⟨getMetricsCore_byModel_sorted s q.modelFilter ft tt,
    getMetricsCore_timeseries_sorted s q.modelFilter ft tt⟩

theorem claim_C6_witness :
    witResp.byModel.Pairwise (fun a b => a.model < b.model) ∧
      witResp.timeseries.Pairwise (fun a b => a.bucketStart < b.bucketStart) :=
  claim_C6 witSnap witQuery GoTime.goZero witResp (by decide)

/-- C2: with both bounds supplied, parsed, and nonzero, the report counts
exactly the details inside the inclusive window: a pair is counted iff it
passes the model filter and `from ≤ timestamp ≤ to`, so a detail exactly at
a bound is in, and one strictly outside a bound is out of totals, and hence
(by the sum identities) out of `by_model` and `timeseries` as well. -/
theorem claim_C2 (s : Snapshot) (q : Query) (now ft tt : GoTime)
    (resp : MetricsResponse)
    (hf : q.fromStr ≠ "") (ht : q.toStr ≠ "")
    (hpf : parseRFC3339 q.fromStr = some ft) (hpt : parseRFC3339 q.toStr = some tt)
    (hfz : ¬ ft.isZero) (htz : ¬ tt.isZero)
    (h : getMetrics s q now = .ok resp) :
    resp.totals.requests = ((flatPairs s).filter
        (fun p => decide (pairMatches ft tt q.modelFilter p))).length ∧
      resp.totals.tokens = tokSum ((flatPairs s).filter
        (fun p => decide (pairMatches ft tt q.modelFilter p))) ∧
      (resp.byModel.map (fun m => m.requests)).sum = resp.totals.requests ∧
      (resp.timeseries.map (fun b => b.requests)).sum = resp.totals.requests ∧
      ∀ p : String × UsageDetail,
        pairMatches ft tt q.modelFilter p ↔
          ((q.modelFilter = "" ∨ q.modelFilter = p.1) ∧
            ft.ns ≤ p.2.timestamp.ns ∧ p.2.timestamp.ns ≤ tt.ns) := by
  have hok := getMetrics_parsed s q now ft tt (fun hand => hf hand.1)
    (by rw [if_neg hf]; exact timeParse_of_strict _ _ hpf)
    (by rw [if_neg ht]; exact timeParse_of_strict _ _ hpt)
  rw [h] at hok
  have heq := Except.ok.inj hok
  subst heq
  obtain ⟨ht1, ht2⟩ := getMetricsCore_totals s q.modelFilter ft tt
  obtain ⟨hs1, hs2, hs3, hs4⟩ := getMetricsCore_sums s q.modelFilter ft tt
  refine ⟨ht1, ht2, hs2, hs4, ?_⟩
  intro p
  simp only [pairMatches, windowSkip, GoTime.before, GoTime.after, GoTime.isZero]
    at hfz htz ⊢
  constructor
  · rintro ⟨hm, hw⟩
    refine ⟨?_, ?_, ?_⟩
    · by_cases hfil : q.modelFilter = ""
      · exact Or.inl hfil
      · refine Or.inr ?_
        by_contra hne
        exact hm ⟨hfil, hne⟩
    · have h1 : ¬ (p.2.timestamp.ns < ft.ns) := fun hlt => hw (Or.inl ⟨hfz, hlt⟩)
      omega
    · have h2 : ¬ (p.2.timestamp.ns > tt.ns) := fun hgt => hw (Or.inr ⟨htz, hgt⟩)
      omega
  · rintro ⟨hm, h1, h2⟩
    refine ⟨?_, ?_⟩
    · rintro ⟨hne, hnep⟩
      rcases hm with he | he
      · exact hne he
      · exact hnep he
    · rintro (⟨-, hlt⟩ | ⟨-, hgt⟩) <;> omega

theorem claim_C2_witness :
    witResp.totals.requests = ((flatPairs witSnap).filter
        (fun p => decide (pairMatches (witTime "2024-01-01T00:00:00Z")
          (witTime "2024-01-01T23:59:59Z") "" p))).length ∧
      witResp.totals.tokens = tokSum ((flatPairs witSnap).filter
        (fun p => decide (pairMatches (witTime "2024-01-01T00:00:00Z")
          (witTime "2024-01-01T23:59:59Z") "" p))) ∧
      (witResp.byModel.map (fun m => m.requests)).sum = witResp.totals.requests ∧
      (witResp.timeseries.map (fun b => b.requests)).sum = witResp.totals.requests ∧
      ∀ p : String × UsageDetail,
        pairMatches (witTime "2024-01-01T00:00:00Z")
            (witTime "2024-01-01T23:59:59Z") "" p ↔
          (("" = "" ∨ "" = p.1) ∧
            (witTime "2024-01-01T00:00:00Z").ns ≤ p.2.timestamp.ns ∧
            p.2.timestamp.ns ≤ (witTime "2024-01-01T23:59:59Z").ns) :=
  claim_C2 witSnap witQuery GoTime.goZero (witTime "2024-01-01T00:00:00Z")
    (witTime "2024-01-01T23:59:59Z") witResp (by decide) (by decide) (by decide)
    (by decide) (by decide) (by decide) (by decide)

/-- C7: when exactly one bound is supplied (and parses), only that bound is
enforced: the effective time value on the unsupplied side is the zero
`time.Time`, a pair passing the model filter and the supplied bound is
always counted, and the match predicate mentions no condition on the
unsupplied side at all. -/
theorem claim_C7 (s : Snapshot) (q : Query) (now bound : GoTime)
    (resp : MetricsResponse) :
    (q.fromStr ≠ "" → q.toStr = "" → parseRFC3339 q.fromStr = some bound →
      getMetrics s q now = .ok resp →
      resp.totals.requests = ((flatPairs s).filter
          (fun p => decide (pairMatches bound GoTime.goZero q.modelFilter p))).length ∧
        (∀ p : String × UsageDetail,
          (q.modelFilter = "" ∨ q.modelFilter = p.1) →
            ¬ p.2.timestamp.before bound →
            pairMatches bound GoTime.goZero q.modelFilter p) ∧
        (∀ p : String × UsageDetail,
          pairMatches bound GoTime.goZero q.modelFilter p ↔
            ((q.modelFilter = "" ∨ q.modelFilter = p.1) ∧
              ¬ ((¬ bound.isZero) ∧ p.2.timestamp.before bound)))) ∧
    (q.fromStr = "" → q.toStr ≠ "" → parseRFC3339 q.toStr = some bound →
      getMetrics s q now = .ok resp →
      resp.totals.requests = ((flatPairs s).filter
          (fun p => decide (pairMatches GoTime.goZero bound q.modelFilter p))).length ∧
        (∀ p : String × UsageDetail,
          (q.modelFilter = "" ∨ q.modelFilter = p.1) →
            ¬ p.2.timestamp.after bound →
            pairMatches GoTime.goZero bound q.modelFilter p) ∧
        (∀ p : String × UsageDetail,
          pairMatches GoTime.goZero bound q.modelFilter p ↔
            ((q.modelFilter = "" ∨ q.modelFilter = p.1) ∧
              ¬ ((¬ bound.isZero) ∧ p.2.timestamp.after bound)))) := by
  have hmodel : ∀ p : String × UsageDetail,
      ¬ (q.modelFilter ≠ "" ∧ q.modelFilter ≠ p.1) ↔
        (q.modelFilter = "" ∨ q.modelFilter = p.1) := by
    intro p
    constructor
    · intro hm
      by_cases hfil : q.modelFilter = ""
      · exact Or.inl hfil
      · refine Or.inr ?_
        by_contra hne
        exact hm ⟨hfil, hne⟩
    · rintro (he | he) ⟨hne, hnep⟩
      · exact hne he
      · exact hnep he
  constructor
  · intro hf hte hpf hok
    have hcall := getMetrics_parsed s q now bound GoTime.goZero
      (fun hand => hf hand.1)
      (by rw [if_neg hf]; exact timeParse_of_strict _ _ hpf)
      (by rw [if_pos hte])
    rw [hok] at hcall
    have heq := Except.ok.inj hcall
    subst heq
    refine ⟨(getMetricsCore_totals s q.modelFilter bound GoTime.goZero).1, ?_, ?_⟩
    · intro p hm hlow
      refine ⟨(hmodel p).mpr hm, ?_⟩
      rintro (⟨-, hlt⟩ | ⟨hz, hgt⟩)
      · exact hlow hlt
      · exact hz rfl
    · intro p
      unfold pairMatches windowSkip
      rw [hmodel p]
      constructor
      · rintro ⟨hm, hw⟩
        exact ⟨hm, fun hc => hw (Or.inl hc)⟩
      · rintro ⟨hm, hc⟩
        refine ⟨hm, ?_⟩
        rintro (hlow | ⟨hz, -⟩)
        · exact hc hlow
        · exact hz rfl
  · intro hfe ht hpt hok
    have hcall := getMetrics_parsed s q now GoTime.goZero bound
      (fun hand => ht hand.2) (by rw [if_pos hfe])
      (by rw [if_neg ht]; exact timeParse_of_strict _ _ hpt)
    rw [hok] at hcall
    have heq := Except.ok.inj hcall
    subst heq
    refine ⟨(getMetricsCore_totals s q.modelFilter GoTime.goZero bound).1, ?_, ?_⟩
    · intro p hm hup
      refine ⟨(hmodel p).mpr hm, ?_⟩
      rintro (⟨hz, hlt⟩ | ⟨-, hgt⟩)
      · exact hz rfl
      · exact hup hgt
    · intro p
      unfold pairMatches windowSkip
      rw [hmodel p]
      constructor
      · rintro ⟨hm, hw⟩
        exact ⟨hm, fun hc => hw (Or.inr hc)⟩
      · rintro ⟨hm, hc⟩
        refine ⟨hm, ?_⟩
        rintro (⟨hz, -⟩ | hup)
        · exact hz rfl
        · exact hc hup

theorem claim_C7_witness :
    witResp.totals.requests = ((flatPairs witSnap).filter
        (fun p => decide (pairMatches (witTime "2024-01-01T00:00:00Z")
          GoTime.goZero "" p))).length ∧
      (∀ p : String × UsageDetail,
        ("" = "" ∨ "" = p.1) →
          ¬ p.2.timestamp.before (witTime "2024-01-01T00:00:00Z") →
          pairMatches (witTime "2024-01-01T00:00:00Z") GoTime.goZero "" p) ∧
      (∀ p : String × UsageDetail,
        pairMatches (witTime "2024-01-01T00:00:00Z") GoTime.goZero "" p ↔
          (("" = "" ∨ "" = p.1) ∧
            ¬ ((¬ (witTime "2024-01-01T00:00:00Z").isZero) ∧
              p.2.timestamp.before (witTime "2024-01-01T00:00:00Z")))) :=
  (claim_C7 witSnap ⟨"2024-01-01T00:00:00Z", "", ""⟩ GoTime.goZero
      (witTime "2024-01-01T00:00:00Z") witResp).1
    (by decide) rfl (by decide) (by decide)

/-- C8: the model filter matches by exact string equality (only pairs whose
model name equals the filter can be counted), and a filter equal to no
model name of the snapshot yields the successful empty report: zero totals
and empty `by_model` and `timeseries`. -/
theorem claim_C8 (s : Snapshot) (q : Query) (now : GoTime) (resp : MetricsResponse)
    (hfil : q.modelFilter ≠ "")
    (habsent : ∀ api ∈ s.apis, ∀ e ∈ api.models, e.1 ≠ q.modelFilter)
    (h : getMetrics s q now = .ok resp) :
    resp = ⟨⟨0, 0⟩, [], []⟩ ∧
      ∀ ft tt : GoTime, ∀ p : String × UsageDetail,
        pairMatches ft tt q.modelFilter p → p.1 = q.modelFilter := by
  have hnames : ∀ (ft tt : GoTime), ∀ p ∈ flatPairs s,
      ¬ pairMatches ft tt q.modelFilter p := by
    intro ft tt p hp hm
    unfold flatPairs at hp
    obtain ⟨api, hapi, hp2⟩ := List.mem_flatMap.mp hp
    obtain ⟨e, he, hp3⟩ := List.mem_flatMap.mp hp2
    obtain ⟨d, hd, hpe⟩ := List.mem_map.mp hp3
    have hname : p.1 = e.1 := by rw [← hpe]
    have hfe : q.modelFilter = p.1 := by
      by_contra hnp
      exact hm.1 ⟨hfil, hnp⟩
    exact habsent api hapi e he (by rw [← hname, ← hfe])
  obtain ⟨ft, tt, heq⟩ := getMetrics_ok_shape s q now resp h
  subst heq
  constructor
  · unfold getMetricsCore
    rw [aggregate_eq_pairs, foldl_procPair_nomatch ft tt q.modelFilter _ _ (hnames ft tt)]
    rfl
  · intro ft2 tt2 p hm
    by_contra hnp
    exact hm.1 ⟨hfil, fun he => hnp he.symm⟩

theorem claim_C8_witness :
    (⟨⟨0, 0⟩, [], []⟩ : MetricsResponse) = ⟨⟨0, 0⟩, [], []⟩ ∧
      ∀ ft tt : GoTime, ∀ p : String × UsageDetail,
        pairMatches ft tt "claude" p → p.1 = "claude" :=
  claim_C8 witSnap ⟨"2024-01-01T00:00:00Z", "2024-01-01T23:59:59Z", "claude"⟩
    GoTime.goZero ⟨⟨0, 0⟩, [], []⟩ (by decide) (by decide) (by decide)

theorem length_filter_le_one {α : Type} (f : α → String) (l : List α)
    (hnd : (l.map f).Nodup) (M : String) :
    (l.filter (fun a => decide (f a = M))).length ≤ 1 := by
  induction l with
  | nil => simp
  | cons a as ih =>
    rw [List.map_cons, List.nodup_cons] at hnd
    simp only [List.filter_cons]
    by_cases hM : f a = M
    · rw [if_pos (decide_eq_true hM)]
      have hnil : as.filter (fun b => decide (f b = M)) = [] := by
        rw [List.filter_eq_nil_iff]
        intro b hb
        simp only [decide_eq_true_eq]
        intro hbe
        apply hnd.1
        rw [hM, ← hbe]
        exact List.mem_map_of_mem f hb
      rw [hnil]
      simp
    · rw [if_neg (by simpa using hM)]
      exact ih hnd.2

/-- C9: provider identity plays no role in the report: the call on any
snapshot equals the call on the snapshot with all providers merged into
one (so details recorded by different providers under one model name land
in the same entries and buckets), and no model name ever has two `by_model`
entries. -/
theorem claim_C9 (s : Snapshot) (q : Query) (now : GoTime) :
    getMetrics s q now =
        getMetrics ⟨[⟨s.apis.flatMap (fun a => a.models)⟩]⟩ q now ∧
      ∀ resp : MetricsResponse, getMetrics s q now = .ok resp →
        ∀ M : String,
          (resp.byModel.filter (fun (m : ModelMetrics) => decide (m.model = M))).length ≤ 1 := by
  have hfp : flatPairs ⟨[⟨s.apis.flatMap (fun a => a.models)⟩]⟩ = flatPairs s := by
    unfold flatPairs
    simp only [List.flatMap_cons, List.flatMap_nil, List.append_nil]
    exact List.flatMap_assoc s.apis (fun a => a.models)
      (fun e => e.2.details.map (fun d => (e.1, d)))
  have hcore : ∀ fil ft tt, getMetricsCore s fil ft tt =
      getMetricsCore ⟨[⟨s.apis.flatMap (fun a => a.models)⟩]⟩ fil ft tt := by
    intro fil ft tt
    unfold getMetricsCore
    rw [aggregate_eq_pairs, aggregate_eq_pairs, hfp]
  constructor
  · unfold getMetrics
    split
    · rw [hcore]
    · simp only [hcore]
  · intro resp hok M
    obtain ⟨ft, tt, heq⟩ := getMetrics_ok_shape s q now resp hok
    subst heq
    have hpw := getMetricsCore_byModel_sorted s q.modelFilter ft tt
    have hnd : ((getMetricsCore s q.modelFilter ft tt).byModel.map
        (fun m => m.model)).Nodup := by
      exact (List.pairwise_map).mpr (hpw.imp (fun hab => ne_of_lt hab))
    exact length_filter_le_one (fun (m : ModelMetrics) => m.model) _ hnd M

theorem claim_C9_witness :
    getMetrics witSnap witQuery GoTime.goZero =
        getMetrics ⟨[⟨witSnap.apis.flatMap (fun a => a.models)⟩]⟩ witQuery
          GoTime.goZero ∧
      (witResp.byModel.filter (fun (m : ModelMetrics) => decide (m.model = "gpt"))).length ≤ 1 :=
  ⟨(claim_C9 witSnap witQuery GoTime.goZero).1,
    (claim_C9 witSnap witQuery GoTime.goZero).2 witResp (by decide) "gpt"⟩

/-- C3 counterexample inputs: one matching detail recorded with a `+05:30`
zone offset. -/
def c3Snap : Snapshot :=
  ⟨[⟨[("gpt", ⟨[⟨witTime "2024-01-01T10:15:00+05:30", 100⟩]⟩)]⟩]⟩

/-- C3 as stated is false on the code: the matching detail at
`2024-01-01T10:15:00+05:30` is bucketed with `bucket_start`
`2024-01-01T09:30:00+05:30` — `Truncate(time.Hour)` floors the absolute
time to the UTC hour — while truncating to the start of its calendar hour
with the source offset's semantics (the spec's words, `truncHourLocal`)
would give `2024-01-01T10:00:00+05:30`. -/
theorem claim_C3_counterexample :
    getMetrics c3Snap ⟨"2024-01-01T00:00:00Z", "2024-01-02T00:00:00Z", ""⟩
        GoTime.goZero =
      .ok ⟨⟨100, 1⟩, [⟨"gpt", 100, 1⟩],
        [⟨"2024-01-01T09:30:00+05:30", 100, 1⟩]⟩ ∧
    fmtRFC3339 (truncHourLocal (witTime "2024-01-01T10:15:00+05:30")) =
      "2024-01-01T10:00:00+05:30" ∧
    ("2024-01-01T09:30:00+05:30" : String) ≠ "2024-01-01T10:00:00+05:30" :=
  ⟨by decide, by decide, by decide⟩

/-- C3 (amended): every matching detail's hour bucket is its timestamp with
the instant floored to a whole hour since the zero time (the start of the
UTC hour) and the zone offset kept, rendered in RFC3339; every timeseries
entry's `bucket_start` is such a rendering of an hour-aligned instant, and
whenever the offset is a whole number of hours this bucket has wall-clock
minutes, seconds and sub-seconds zero. -/
theorem claim_C3 (s : Snapshot) (fil : String) (ft tt : GoTime) :
    (∀ b ∈ (getMetricsCore s fil ft tt).timeseries,
      ∃ k : GoTime, k.ns % 3600000000000 = 0 ∧ b.bucketStart = fmtRFC3339 k ∧
        (k.off % 3600 = 0 → (k.ns + k.off * 1000000000) % 3600000000000 = 0)) ∧
    (∀ p ∈ flatPairs s, pairMatches ft tt fil p →
      fmtRFC3339 p.2.timestamp.truncHour ∈
          (getMetricsCore s fil ft tt).timeseries.map (fun b => b.bucketStart) ∧
        p.2.timestamp.truncHour.ns =
          3600000000000 * (p.2.timestamp.ns / 3600000000000) ∧
        p.2.timestamp.truncHour.off = p.2.timestamp.off) := by
  constructor
  · intro b hb
    obtain ⟨k, halign, hbs⟩ := getMetricsCore_bucket_shape s fil ft tt b hb
    exact ⟨k, halign, hbs, fun hoff => by omega⟩
  · intro p hp hm
    exact ⟨getMetricsCore_bucket_mem s fil ft tt p hp hm, rfl, rfl⟩

theorem claim_C3_witness :
    fmtRFC3339 (witTime "2024-01-01T10:05:00Z").truncHour ∈
        (getMetricsCore witSnap "" (witTime "2024-01-01T00:00:00Z")
          (witTime "2024-01-01T23:59:59Z")).timeseries.map
            (fun b => b.bucketStart) ∧
      (witTime "2024-01-01T10:05:00Z").truncHour.ns =
        3600000000000 * ((witTime "2024-01-01T10:05:00Z").ns / 3600000000000) ∧
      (witTime "2024-01-01T10:05:00Z").truncHour.off =
        (witTime "2024-01-01T10:05:00Z").off :=
  (claim_C3 witSnap "" (witTime "2024-01-01T00:00:00Z")
      (witTime "2024-01-01T23:59:59Z")).2
    ("gpt", ⟨witTime "2024-01-01T10:05:00Z", 100⟩) (by decide) (by decide)

/-- C10 counterexample inputs: one detail far older than 24 hours before
the call instant. -/
def c10Snap : Snapshot :=
  ⟨[⟨[("gpt", ⟨[⟨witTime "2024-01-01T10:05:00Z", 100⟩]⟩)]⟩]⟩

/-- The call instant used in the C10 counterexample. -/
def c10Now : GoTime := witTime "2024-06-01T00:00:00Z"

/-- C10 as stated is false on the code: a `from` equal to the zero instant
is indeed unenforced (the old detail is counted), but the call is not
"exactly as if the bound had been absent" — with the bound absent (and `to`
also absent) the default trailing-24-hour window applies and the detail is
excluded. -/
theorem claim_C10_counterexample :
    getMetrics c10Snap ⟨"0001-01-01T00:00:00Z", "", ""⟩ c10Now =
        .ok ⟨⟨100, 1⟩, [⟨"gpt", 100, 1⟩],
          [⟨"2024-01-01T10:00:00Z", 100, 1⟩]⟩ ∧
      getMetrics c10Snap ⟨"", "", ""⟩ c10Now = .ok ⟨⟨0, 0⟩, [], []⟩ ∧
      getMetrics c10Snap ⟨"0001-01-01T00:00:00Z", "", ""⟩ c10Now ≠
        getMetrics c10Snap ⟨"", "", ""⟩ c10Now :=
  ⟨by decide, by decide, by decide⟩

/-- C10 (amended): a supplied bound parsing to the zero instant
`0001-01-01T00:00:00Z` is not enforced — the window is unbounded on that
side and no detail is ever excluded by it — and when the other bound is
also supplied the call behaves exactly as if the zero bound had been
absent; when the other bound is absent, however, omitting the zero bound
instead turns on the default 24-hour window (the counterexample). -/
theorem claim_C10 (s : Snapshot) (q : Query) (now : GoTime) :
    (q.fromStr ≠ "" → parseRFC3339 q.fromStr = some GoTime.goZero →
      (∀ (tt : GoTime) (p : String × UsageDetail),
        pairMatches GoTime.goZero tt q.modelFilter p ↔
          ((q.modelFilter = "" ∨ q.modelFilter = p.1) ∧
            ¬ ((¬ tt.isZero) ∧ p.2.timestamp.after tt))) ∧
      (q.toStr ≠ "" → getMetrics s q now =
        getMetrics s ⟨"", q.toStr, q.modelFilter⟩ now)) ∧
    (q.toStr ≠ "" → parseRFC3339 q.toStr = some GoTime.goZero →
      (∀ (ft : GoTime) (p : String × UsageDetail),
        pairMatches ft GoTime.goZero q.modelFilter p ↔
          ((q.modelFilter = "" ∨ q.modelFilter = p.1) ∧
            ¬ ((¬ ft.isZero) ∧ p.2.timestamp.before ft))) ∧
      (q.fromStr ≠ "" → getMetrics s q now =
        getMetrics s ⟨q.fromStr, "", q.modelFilter⟩ now)) := by
  have hmodel : ∀ p : String × UsageDetail,
      ¬ (q.modelFilter ≠ "" ∧ q.modelFilter ≠ p.1) ↔
        (q.modelFilter = "" ∨ q.modelFilter = p.1) := by
    intro p
    constructor
    · intro hm
      by_cases hfil : q.modelFilter = ""
      · exact Or.inl hfil
      · refine Or.inr ?_
        by_contra hne
        exact hm ⟨hfil, hne⟩
    · rintro (he | he) ⟨hne, hnep⟩
      · exact hne he
      · exact hnep he
  constructor
  · intro hf hpz
    constructor
    · intro tt p
      unfold pairMatches windowSkip
      rw [hmodel p]
      constructor
      · rintro ⟨hm, hw⟩
        exact ⟨hm, fun hc => hw (Or.inr hc)⟩
      · rintro ⟨hm, hc⟩
        refine ⟨hm, ?_⟩
        rintro (⟨hz, -⟩ | hup)
        · exact hz rfl
        · exact hc hup
    · intro hto
      cases hpt : timeParse q.toStr with
      | none =>
        have h1 : getMetrics s q now = .error "invalid 'to' timestamp format" :=
          getMetrics_badTo s q now GoTime.goZero hto
            (by rw [if_neg hf]; exact timeParse_of_strict _ _ hpz) hpt
        have h2 : getMetrics s ⟨"", q.toStr, q.modelFilter⟩ now =
            .error "invalid 'to' timestamp format" :=
          getMetrics_badTo s ⟨"", q.toStr, q.modelFilter⟩ now GoTime.goZero hto
            (by rw [if_pos rfl]) hpt
        rw [h1, h2]
      | some tt =>
        have h1 : getMetrics s q now =
            .ok (getMetricsCore s q.modelFilter GoTime.goZero tt) :=
          getMetrics_parsed s q now GoTime.goZero tt
            (fun hand => hf hand.1) (by rw [if_neg hf]; exact timeParse_of_strict _ _ hpz)
            (by rw [if_neg hto, hpt])
        have h2 : getMetrics s ⟨"", q.toStr, q.modelFilter⟩ now =
            .ok (getMetricsCore s q.modelFilter GoTime.goZero tt) :=
          getMetrics_parsed s ⟨"", q.toStr, q.modelFilter⟩ now GoTime.goZero tt
            (fun hand => hto hand.2) (by rw [if_pos rfl])
            (by rw [if_neg hto, hpt])
        rw [h1, h2]
  · intro hto hpz
    constructor
    · intro ft p
      unfold pairMatches windowSkip
      rw [hmodel p]
      constructor
      · rintro ⟨hm, hw⟩
        exact ⟨hm, fun hc => hw (Or.inl hc)⟩
      · rintro ⟨hm, hc⟩
        refine ⟨hm, ?_⟩
        rintro (hlow | ⟨hz, -⟩)
        · exact hc hlow
        · exact hz rfl
    · intro hf
      cases hpf : timeParse q.fromStr with
      | none =>
        have h1 : getMetrics s q now =
            .error "invalid 'from' timestamp format" :=
          getMetrics_badFrom s q now hf hpf
        have h2 : getMetrics s ⟨q.fromStr, "", q.modelFilter⟩ now =
            .error "invalid 'from' timestamp format" :=
          getMetrics_badFrom s ⟨q.fromStr, "", q.modelFilter⟩ now hf hpf
        rw [h1, h2]
      | some ft =>
        have h1 : getMetrics s q now =
            .ok (getMetricsCore s q.modelFilter ft GoTime.goZero) :=
          getMetrics_parsed s q now ft GoTime.goZero
            (fun hand => hf hand.1) (by rw [if_neg hf, hpf])
            (by rw [if_neg hto]; exact timeParse_of_strict _ _ hpz)
        have h2 : getMetrics s ⟨q.fromStr, "", q.modelFilter⟩ now =
            .ok (getMetricsCore s q.modelFilter ft GoTime.goZero) :=
          getMetrics_parsed s ⟨q.fromStr, "", q.modelFilter⟩ now ft GoTime.goZero
            (fun hand => hf hand.1) (by rw [if_neg hf, hpf])
            (by rw [if_pos rfl])
        rw [h1, h2]

theorem claim_C10_witness :
    (∀ (tt : GoTime) (p : String × UsageDetail),
      pairMatches GoTime.goZero tt "" p ↔
        (("" = "" ∨ "" = p.1) ∧ ¬ ((¬ tt.isZero) ∧ p.2.timestamp.after tt))) ∧
      getMetrics c10Snap ⟨"0001-01-01T00:00:00Z", "2024-12-31T23:59:59Z", ""⟩
          c10Now =
        getMetrics c10Snap ⟨"", "2024-12-31T23:59:59Z", ""⟩ c10Now :=
  ⟨((claim_C10 c10Snap ⟨"0001-01-01T00:00:00Z", "2024-12-31T23:59:59Z", ""⟩
      c10Now).1 (by decide) (by decide)).1,
    ((claim_C10 c10Snap ⟨"0001-01-01T00:00:00Z", "2024-12-31T23:59:59Z", ""⟩
      c10Now).1 (by decide) (by decide)).2 (by decide)⟩
